import Mathlib

/-!
Verification of the storage-allocation core of sc_custom
(src/sc_custom/api/pick_list_storage.py) against its specification.

The Python functions are shallowly embedded as pure Lean functions.
Database snapshots (results of the SQL queries issued by the code) are
passed in as explicit parameters:

* an aggregated stock-ledger snapshot, keyed by item code and warehouse,
  models the grouped SQL query in get_available_storage_locations
  (the SQL itself guarantees only positive aggregates via HAVING; where a
  theorem needs that fact, it appears as an explicit hypothesis);
* a list of pre-aggregated batch candidates models the grouped join in
  _get_available_batches_for_item;
* a list of serial-number rows models the Serial No query in
  _get_available_serial_nos_for_item.

Quantities are rationals (the Python code only adds, subtracts, compares
and takes minima of its float quantities, so the algebra is exact).
SQL ORDER BY on a single key is modelled as a stable sort of the snapshot
(ties keep snapshot order), and NULL ordering follows the MariaDB backend
used by the surrounding framework: NULL sorts before every value under an
ascending ORDER BY.
-/

set_option maxHeartbeats 1000000

/-- One aggregated row of the storage query in get_available_storage_locations:
a storage location together with its summed available quantity for one
(item_code, warehouse) pair. -/
structure SLEAgg where
  storage : String
  available_qty : ℚ
deriving DecidableEq

/-- One entry of the list returned by get_available_storage_locations. -/
structure StorageEntry where
  storage : String
  available_qty : ℚ
  qty_to_pick : ℚ
deriving DecidableEq

/-- The loop body of get_available_storage_locations: walk the aggregated
rows in query order, skip non-positive aggregates, and propose
min(available, remaining) from each row until the requirement is covered. -/
def pickLoop : List SLEAgg → ℚ → List StorageEntry
  | [], _ => []
  | r :: rs, remaining =>
    if remaining ≤ 0 then []
    else if r.available_qty ≤ 0 then pickLoop rs remaining
    else
      { storage := r.storage, available_qty := r.available_qty,
        qty_to_pick := min r.available_qty remaining }
        :: pickLoop rs (remaining - min r.available_qty remaining)

/-- get_available_storage_locations(item_code, warehouse, required_qty).
The parameter sleDb gives, per (item_code, warehouse), the aggregated rows
returned by the SQL query, already in its ORDER BY order. -/
def get_available_storage_locations (sleDb : String → String → List SLEAgg)
    (item_code warehouse : String) (required_qty : ℚ) : List StorageEntry :=
  if item_code = "" ∨ warehouse = "" then []
  else if required_qty ≤ 0 then []
  else pickLoop (sleDb item_code warehouse) required_qty

/-- One allocation (storage, qty) recorded for a row by
allocate_storage_for_pick_list. -/
structure Alloc where
  storage : String
  qty : ℚ
deriving DecidableEq

/-- remaining_in_storage after advancing the cursor: the next candidate's
qty_to_pick, or 0 when the cursor has run past the last candidate. -/
def rowNext : List StorageEntry → ℚ
  | [] => 0
  | c :: _ => c.qty_to_pick

/-- The inner while loop of allocate_storage_for_pick_list for one row.
State is the cursor, represented as the not-yet-advanced-past suffix of the
candidate list together with remaining_in_storage for its head. Returns the
allocations recorded for the row and the final cursor state. -/
def allocRow : List StorageEntry → ℚ → ℚ → List Alloc × List StorageEntry × ℚ
  | [], rem, _ => ([], [], rem)
  | c :: cs, rem, need =>
    if need ≤ 0 then ([], c :: cs, rem)
    else if need ≤ rem then ([{ storage := c.storage, qty := need }], c :: cs, rem - need)
    else if 0 < rem then
      let rest := allocRow cs (rowNext cs) (need - rem)
      ({ storage := c.storage, qty := rem } :: rest.1, rest.2.1, rest.2.2)
    else allocRow cs (rowNext cs) need

/-- One input row of allocate_storage_for_pick_list, as decoded from
locations_json. none models an absent key; the falsy checks of the source
treat none and the empty string (resp. quantity 0) alike. -/
structure LocRow where
  item_code : Option String
  warehouse : Option String
  stock_qty : Option ℚ
  name : Option String
  storage : Option String
deriving DecidableEq

/-- Python truthiness test for an optional string field: not row.get(k). -/
def strFalsy : Option String → Bool
  | none => true
  | some s => s == ""

/-- Python truthiness test for an optional numeric field: not row.get(k).
Note that only 0 (and absence) is falsy; negative numbers are truthy. -/
def qtyFalsy : Option ℚ → Bool
  | none => true
  | some q => decide (q = 0)

/-- A row as stored inside a warehouse group by allocate_storage_for_pick_list. -/
structure GroupRow where
  idx : ℕ
  name : Option String
  qty : ℚ
  existing_storage : Option String
deriving DecidableEq

/-- One (item_code, warehouse) group of allocate_storage_for_pick_list;
the key is the concatenation used by the source. -/
structure PLGroup where
  key : String
  item_code : String
  warehouse : String
  rows : List GroupRow
deriving DecidableEq

/-- Insert a row into the insertion-ordered group list (the Python dict
warehouse_groups keyed by the concatenated key string, with rows appended
to the matching group). -/
def addToGroups : List PLGroup → String → String → String → GroupRow → List PLGroup
  | [], key, item, wh, r => [{ key := key, item_code := item, warehouse := wh, rows := [r] }]
  | g :: gs, key, item, wh, r =>
    if g.key = key then { g with rows := g.rows ++ [r] } :: gs
    else g :: addToGroups gs key item wh r

/-- The skip condition of the grouping loop in
allocate_storage_for_pick_list (line 106): falsy item_code, warehouse or
stock_qty. -/
def plSkip (r : LocRow) : Bool :=
  strFalsy r.item_code || strFalsy r.warehouse || qtyFalsy r.stock_qty

/-- The grouping pass of allocate_storage_for_pick_list (lines 104-121):
rows whose item_code, warehouse or stock_qty is falsy are skipped (they
receive no outcome at all); the rest are appended to their group. -/
def buildGroupsPL : List PLGroup → ℕ → List LocRow → List PLGroup
  | gs, _, [] => gs
  | gs, idx, r :: rs =>
    if plSkip r then
      buildGroupsPL gs (idx + 1) rs
    else
      buildGroupsPL
        (addToGroups gs (r.item_code.getD "" ++ "|||" ++ r.warehouse.getD "")
          (r.item_code.getD "") (r.warehouse.getD "")
          { idx := idx, name := r.name, qty := r.stock_qty.getD 0,
            existing_storage := r.storage })
        (idx + 1) rs

/-- One result row of allocate_storage_for_pick_list. In the
no-storage-data branch (lines 139-144) the source emits a dict without the
qty, split and additional_allocations keys; an absent key is modelled by
the no-allocation values 0, false, []. -/
structure PLOutcome where
  idx : ℕ
  name : Option String
  storage : Option String
  qty : ℚ
  split : Bool
  additional_allocations : List Alloc
deriving DecidableEq

/-- The per-row loop of allocate_storage_for_pick_list (lines 151-191):
thread the cursor through the group's rows; the first allocation of a row
supplies storage and qty, the rest become additional_allocations, and
split is set iff more than one allocation was recorded. -/
def allocRowsPL : List GroupRow → List StorageEntry → ℚ → List PLOutcome
  | [], _, _ => []
  | r :: rs, cur, rem =>
    let step := allocRow cur rem r.qty
    { idx := r.idx, name := r.name,
      storage := step.1.head?.map Alloc.storage,
      qty := (step.1.head?.map Alloc.qty).getD 0,
      split := decide (1 < step.1.length),
      additional_allocations := step.1.tail } :: allocRowsPL rs step.2.1 step.2.2

/-- Processing of one (item, warehouse) group by
allocate_storage_for_pick_list (lines 126-191). -/
def processGroupPL (sleDb : String → String → List SLEAgg) (g : PLGroup) : List PLOutcome :=
  let locs := get_available_storage_locations sleDb g.item_code g.warehouse
    ((g.rows.map GroupRow.qty).sum)
  match locs with
  | [] => g.rows.map fun r =>
      { idx := r.idx, name := r.name, storage := none, qty := 0, split := false,
        additional_allocations := [] }
  | l :: rest => allocRowsPL g.rows (l :: rest) l.qty_to_pick

/-- result.sort(key=lambda x: x['idx']) — Python's stable sort, modelled by
stable insertion sort on the idx key. -/
def sortByIdxPL (l : List PLOutcome) : List PLOutcome :=
  List.insertionSort (fun a b => a.idx ≤ b.idx) l

/-- allocate_storage_for_pick_list(locations_json) (lines 86-196). -/
def allocate_storage_for_pick_list (sleDb : String → String → List SLEAgg)
    (locations : List LocRow) : List PLOutcome :=
  sortByIdxPL (((buildGroupsPL [] 0 locations).map (processGroupPL sleDb)).flatten)

/-- One input item of get_storage_for_work_order_items, as decoded from
items_json. -/
structure WOItem where
  item_code : Option String
  s_warehouse : Option String
  qty : Option ℚ
  transfer_qty : Option ℚ
deriving DecidableEq

/-- Python a or b for an optional numeric value: the value unless it is
absent or 0, else the fallback. -/
def orQ : Option ℚ → ℚ → ℚ
  | none, b => b
  | some q, b => if q = 0 then b else q

/-- float(item.get('qty') or item.get('transfer_qty') or 0). -/
def woQty (it : WOItem) : ℚ :=
  orQ it.qty (orQ it.transfer_qty 0)

/-- The invalid-row condition of get_storage_for_work_order_items
(line 254): falsy item_code or warehouse, or non-positive quantity. -/
def woInvalid (it : WOItem) : Bool :=
  strFalsy it.item_code || strFalsy it.s_warehouse || decide (woQty it ≤ 0)

/-- One result row of get_storage_for_work_order_items. -/
structure WOOutcome where
  idx : ℕ
  storage : Option String
deriving DecidableEq

/-- A row inside a (item, warehouse) group of get_storage_for_work_order_items. -/
structure WORow where
  idx : ℕ
  qty : ℚ
deriving DecidableEq

/-- A group of get_storage_for_work_order_items. -/
structure WOGroup where
  key : String
  item_code : String
  warehouse : String
  rows : List WORow
deriving DecidableEq

/-- Insert a row into the insertion-ordered group list of
get_storage_for_work_order_items. -/
def addToGroupsWO : List WOGroup → String → String → String → WORow → List WOGroup
  | [], key, item, wh, r => [{ key := key, item_code := item, warehouse := wh, rows := [r] }]
  | g :: gs, key, item, wh, r =>
    if g.key = key then { g with rows := g.rows ++ [r] } :: gs
    else g :: addToGroupsWO gs key item wh r

/-- The grouping pass of get_storage_for_work_order_items (lines 248-271):
a row with falsy item_code or s_warehouse or with quantity ≤ 0 immediately
receives a storage-less outcome; the rest are appended to their group. -/
def buildGroupsWO : List WOGroup → List WOOutcome → ℕ → List WOItem →
    List WOOutcome × List WOGroup
  | gs, acc, _, [] => (acc, gs)
  | gs, acc, idx, it :: its =>
    if woInvalid it then
      buildGroupsWO gs (acc ++ [{ idx := idx, storage := none }]) (idx + 1) its
    else
      buildGroupsWO
        (addToGroupsWO gs (it.item_code.getD "" ++ "|||" ++ it.s_warehouse.getD "")
          (it.item_code.getD "") (it.s_warehouse.getD "")
          { idx := idx, qty := woQty it })
        acc (idx + 1) its

/-- The inner while loop of get_storage_for_work_order_items for one row
(lines 300-318). allocated_storage is overwritten on every iteration that
draws stock, so it ends as the last storage drawn from, despite the
source's comment at line 311 saying the first storage found is used. -/
def allocRowWO : List StorageEntry → ℚ → ℚ → Option String →
    Option String × List StorageEntry × ℚ
  | [], rem, _, allocated => (allocated, [], rem)
  | c :: cs, rem, need, allocated =>
    if need ≤ 0 then (allocated, c :: cs, rem)
    else if need ≤ rem then (some c.storage, c :: cs, rem - need)
    else if 0 < rem then allocRowWO cs (rowNext cs) (need - rem) (some c.storage)
    else allocRowWO cs (rowNext cs) need allocated

/-- The per-row loop of get_storage_for_work_order_items (lines 295-323). -/
def allocRowsWO : List WORow → List StorageEntry → ℚ → List WOOutcome
  | [], _, _ => []
  | r :: rs, cur, rem =>
    let step := allocRowWO cur rem r.qty none
    { idx := r.idx, storage := step.1 } :: allocRowsWO rs step.2.1 step.2.2

/-- Processing of one group by get_storage_for_work_order_items
(lines 274-323). -/
def processGroupWO (sleDb : String → String → List SLEAgg) (g : WOGroup) : List WOOutcome :=
  let locs := get_available_storage_locations sleDb g.item_code g.warehouse
    ((g.rows.map WORow.qty).sum)
  match locs with
  | [] => g.rows.map fun r => { idx := r.idx, storage := none }
  | l :: rest => allocRowsWO g.rows (l :: rest) l.qty_to_pick

/-- result.sort(key=lambda x: x['idx']) for get_storage_for_work_order_items. -/
def sortByIdxWO (l : List WOOutcome) : List WOOutcome :=
  List.insertionSort (fun a b => a.idx ≤ b.idx) l

/-- get_storage_for_work_order_items(work_order, items_json) (lines 224-328). -/
def get_storage_for_work_order_items (sleDb : String → String → List SLEAgg)
    (work_order : String) (items : List WOItem) : List WOOutcome :=
  if work_order = "" then []
  else
    let built := buildGroupsWO [] [] 0 items
    sortByIdxWO (built.1 ++ (built.2.map (processGroupWO sleDb)).flatten)

/-- A pre-aggregated batch candidate: one (batch_no, warehouse, storage)
group of the join in _get_available_batches_for_item, summed over the
non-cancelled Stock Ledger Entry rows, carrying the batch's attributes.
The SQL WHERE/HAVING filters and ORDER BY are applied by the embedding. -/
structure BatchCand where
  item_code : String
  batch_no : String
  warehouse : String
  storage : Option String
  qty : ℚ
  disabled : Bool
  expiry : Option ℕ
  creation : ℕ
deriving DecidableEq

/-- The ascending SQL ordering on a nullable date column under the MariaDB
backend: NULL sorts before every value. -/
def expiryLe : Option ℕ → Option ℕ → Bool
  | none, _ => true
  | some _, none => false
  | some a, some b => a ≤ b

/-- The ORDER BY key of _get_available_batches_for_item (lines 393-399):
batch creation descending for LIFO, batch expiry_date ascending for
Expiry, batch creation ascending otherwise (FIFO). A single key; ties are
left in snapshot order (the SQL specifies no further key). -/
def batchOrderLe (based_on : String) (a b : BatchCand) : Bool :=
  if based_on = "LIFO" then decide (b.creation ≤ a.creation)
  else if based_on = "Expiry" then expiryLe a.expiry b.expiry
  else decide (a.creation ≤ b.creation)

/-- row.get('warehouse') in priority_set, where an absent warehouse is in
no set. -/
def inPrioritySet {α : Type} (wh : α → Option String) (ps : List String) (r : α) : Bool :=
  match wh r with
  | some w => ps.contains w
  | none => false

/-- _prioritize_warehouses(data, priority_warehouses) (lines 410-423): two
list comprehensions over data, rows from priority warehouses first, then
the others. The duck-typed rows are abstracted by a warehouse projection. -/
def _prioritize_warehouses {α : Type} (wh : α → Option String) (data : List α)
    (priority_warehouses : List String) : List α :=
  if priority_warehouses = [] then data
  else
    data.filter (inPrioritySet wh priority_warehouses)
      ++ data.filter (fun r => !inPrioritySet wh priority_warehouses r)

/-- The WHERE/HAVING conditions of the batch query (lines 372-391 and the
HAVING at 377): batch not disabled, unexpired or without expiry, matching
item, inside the warehouse filter, outside the exclusions, positive total. -/
def batchQueryPred (today : ℕ) (item_code : String)
    (warehouse exclude_warehouses : List String) (c : BatchCand) : Bool :=
  !c.disabled &&
  (match c.expiry with | none => true | some d => decide (today ≤ d)) &&
  c.item_code == item_code &&
  (warehouse.isEmpty || warehouse.contains c.warehouse) &&
  !(exclude_warehouses.contains c.warehouse) &&
  decide (0 < c.qty)

/-- An empty warehouse (or exclusion) list models the absent / falsy
argument, for which the source adds no SQL condition. -/
def _get_available_batches_for_item (batchDb : List BatchCand) (today : ℕ)
    (item_code : String) (warehouse : List String) (based_on : String)
    (priority_warehouses exclude_warehouses : List String) : List BatchCand :=
  let data := batchDb.filter (batchQueryPred today item_code warehouse exclude_warehouses)
  let sorted := List.insertionSort (fun a b => batchOrderLe based_on a b = true) data
  if !priority_warehouses.isEmpty && !sorted.isEmpty then
    _prioritize_warehouses (fun c => some c.warehouse) sorted priority_warehouses
  else sorted

/-- One row of the Serial No table as queried by
_get_available_serial_nos_for_item. -/
structure SerialCand where
  serial_no : String
  item_code : String
  warehouse : Option String
  batch_no : Option String
  creation : ℕ
  amc_expiry : Option ℕ
deriving DecidableEq

/-- One result row of _get_available_serial_nos_for_item, after the
storage lookup has been attached. -/
structure SerialOut where
  serial_no : String
  warehouse : Option String
  batch_no : Option String
  storage : Option String
deriving DecidableEq

/-- The ORDER BY key of _get_available_serial_nos_for_item (lines 473-477):
amc_expiry_date for Expiry (ascending, since order_dir is descending only
for LIFO), otherwise creation in the LIFO-dependent direction. -/
def serialOrderLe (based_on : String) (a b : SerialCand) : Bool :=
  if based_on = "Expiry" then expiryLe a.amc_expiry b.amc_expiry
  else if based_on = "LIFO" then decide (b.creation ≤ a.creation)
  else decide (a.creation ≤ b.creation)

/-- Python int() on the (here always non-negative) float limit. -/
def ratFloorNat (q : ℚ) : ℕ := q.floor.toNat

/-- The WHERE conditions of the Serial No query (lines 456-471): matching
item, a non-empty warehouse, inside the warehouse filter, outside the
exclusions. -/
def serialQueryPred (item_code : String) (warehouse exclude_warehouses : List String)
    (s : SerialCand) : Bool :=
  s.item_code == item_code &&
  (match s.warehouse with | none => false | some w => !(w == "")) &&
  (warehouse.isEmpty ||
    (match s.warehouse with | none => false | some w => warehouse.contains w)) &&
  !(match s.warehouse with | none => false | some w => exclude_warehouses.contains w)

/-- The storage lookup attached to one serial row (lines 486-499). -/
def serialWithStorage (item_code : String)
    (sleStorage : String → String → String → Option String) (s : SerialCand) : SerialOut :=
  { serial_no := s.serial_no, warehouse := s.warehouse, batch_no := s.batch_no,
    storage := match s.warehouse with
      | none => none
      | some w => if w = "" then none else sleStorage item_code w s.serial_no }

/-- _get_available_serial_nos_for_item (lines 426-507). sleStorage models
the per-serial storage lookup from Stock Ledger Entry (item, warehouse,
serial_no to latest storage). -/
def _get_available_serial_nos_for_item (serialDb : List SerialCand)
    (sleStorage : String → String → String → Option String)
    (item_code : String) (warehouse : List String) (required_qty : ℚ)
    (based_on : String) (priority_warehouses exclude_warehouses : List String) :
    List SerialOut :=
  let rows := serialDb.filter (serialQueryPred item_code warehouse exclude_warehouses)
  let rows := List.insertionSort (fun a b => serialOrderLe based_on a b = true) rows
  let rows := if decide (0 < required_qty) && priority_warehouses.isEmpty then
      rows.take (ratFloorNat required_qty)
    else rows
  let data : List SerialOut := rows.map (serialWithStorage item_code sleStorage)
  if !priority_warehouses.isEmpty && !data.isEmpty then
    let d := _prioritize_warehouses (fun s => s.warehouse) data priority_warehouses
    if decide (0 < required_qty) then d.take (ratFloorNat required_qty) else d
  else data

/-- One Bin row as queried by _get_available_stock_for_other_item. -/
structure BinRow where
  item_code : String
  warehouse : String
  qty : ℚ
  creation : ℕ
deriving DecidableEq

/-- One aggregated per-storage Stock Ledger Entry group for one warehouse
in _get_available_stock_for_other_item; pkey stands for the
MIN(posting_date), MIN(posting_time), MIN(creation) ordering tuple.
Unlike get_available_storage_locations, this query keeps NULL storage. -/
structure WhStorageRow where
  storage : Option String
  qty : ℚ
  pkey : ℕ
deriving DecidableEq

/-- One candidate row produced by _get_available_stock_for_other_item. -/
structure PlainRow where
  warehouse : String
  storage : Option String
  qty : ℚ
deriving DecidableEq

/-- _get_available_stock_for_other_item (lines 510-599). binDb models the
Bin table, whStorage the per-(item, warehouse) aggregated storage query in
snapshot order (sorted here by pkey in the LIFO-dependent direction). -/
def _get_available_stock_for_other_item (binDb : List BinRow)
    (whStorage : String → String → List WhStorageRow)
    (item_code : String) (warehouse : List String) (based_on : String)
    (priority_warehouses exclude_warehouses : List String) : List PlainRow :=
  let bins := binDb.filter fun b =>
    b.item_code == item_code && decide (0 < b.qty) &&
    (warehouse.isEmpty || warehouse.contains b.warehouse) &&
    !(exclude_warehouses.contains b.warehouse)
  let bins := List.insertionSort (fun a b => decide (a.creation ≤ b.creation) = true) bins
  if bins.isEmpty then []
  else
    let bins := if !priority_warehouses.isEmpty && !bins.isEmpty then
        _prioritize_warehouses (fun b => some b.warehouse) bins priority_warehouses
      else bins
    (bins.map fun b =>
      let sd := (whStorage item_code b.warehouse).filter fun r => decide (0 < r.qty)
      let sd := List.insertionSort
        (fun x y => (if based_on = "LIFO" then decide (y.pkey ≤ x.pkey)
                     else decide (x.pkey ≤ y.pkey)) = true) sd
      match sd with
      | [] => [{ warehouse := b.warehouse, storage := none, qty := b.qty }]
      | _ => sd.map fun r =>
          { warehouse := b.warehouse, storage := r.storage, qty := r.qty }).flatten

/-- One input item of get_available_stock_for_items. -/
structure StockItem where
  item_code : Option String
  qty : Option ℚ
  transfer_qty : Option ℚ
deriving DecidableEq

/-- One allocation built by get_available_stock_for_items; serial_nos is
empty when the source dict carries no serial_nos key. -/
structure StockAlloc where
  warehouse : Option String
  storage : Option String
  batch_no : Option String
  serial_nos : List String
  qty : ℚ
  available_qty : ℚ
deriving DecidableEq

/-- One result row of get_available_stock_for_items; the keys the source
omits in its empty outcome are modelled by the defaults 0, false, []. -/
structure StockOutcome where
  idx : ℕ
  warehouse : Option String
  storage : Option String
  batch_no : Option String
  serial_nos : List String
  available_qty : ℚ
  qty_allocated : ℚ
  has_serial_no : Bool
  has_batch_no : Bool
  has_split : Bool
  additional_allocations : List StockAlloc
deriving DecidableEq

/-- The batch-branch loop of get_available_stock_for_items
(lines 696-732): walk the ranked batches, take min(batch_qty, remaining)
from each, and when the item is also serial-tracked attach the serial
numbers of that batch (nested lookup restricted to the batch's warehouse,
filtered to the batch identity and truncated to int(qty_to_take)). -/
def batchWalk (serialDb : List SerialCand)
    (sleStorage : String → String → String → Option String) (item_code : String)
    (based_on : String) (prio exclude_warehouses : List String) (has_serial : Bool) :
    List BatchCand → ℚ → List StockAlloc
  | [], _ => []
  | b :: bs, remaining =>
    if remaining ≤ 0 then []
    else if b.qty ≤ 0 then
      batchWalk serialDb sleStorage item_code based_on prio exclude_warehouses has_serial
        bs remaining
    else
      let qty_to_take := min b.qty remaining
      let serials : List String :=
        if has_serial then
          let sdata := _get_available_serial_nos_for_item serialDb sleStorage item_code
            [b.warehouse] qty_to_take based_on prio exclude_warehouses
          ((sdata.filter fun s => s.batch_no == some b.batch_no).map
            SerialOut.serial_no).take (ratFloorNat qty_to_take)
        else []
      { warehouse := some b.warehouse, storage := b.storage, batch_no := some b.batch_no,
        serial_nos := serials, qty := qty_to_take, available_qty := b.qty }
        :: batchWalk serialDb sleStorage item_code based_on prio exclude_warehouses
             has_serial bs (remaining - qty_to_take)

/-- A (warehouse, storage) group of serial numbers in the serial-only
branch of get_available_stock_for_items. -/
structure SerialGroup where
  warehouse : Option String
  storage : Option String
  serial_nos : List String
deriving DecidableEq

/-- Insert one serial row into the insertion-ordered (warehouse, storage)
group list (lines 746-755). -/
def addSerialToGroups : List SerialGroup → SerialOut → List SerialGroup
  | [], s => [{ warehouse := s.warehouse, storage := s.storage, serial_nos := [s.serial_no] }]
  | g :: gs, s =>
    if g.warehouse = s.warehouse ∧ g.storage = s.storage then
      { g with serial_nos := g.serial_nos ++ [s.serial_no] } :: gs
    else g :: addSerialToGroups gs s

/-- Fold the serial rows into their (warehouse, storage) groups. -/
def buildSerialGroups : List SerialGroup → List SerialOut → List SerialGroup
  | gs, [] => gs
  | gs, s :: ss => buildSerialGroups (addSerialToGroups gs s) ss

/-- The serial-only branch loop of get_available_stock_for_items
(lines 757-772). -/
def serialGroupWalk : List SerialGroup → ℚ → List StockAlloc
  | [], _ => []
  | g :: gs, remaining =>
    if remaining ≤ 0 then []
    else
      let qty_to_take := min ((g.serial_nos.length : ℚ)) remaining
      { warehouse := g.warehouse, storage := g.storage, batch_no := none,
        serial_nos := g.serial_nos.take (ratFloorNat qty_to_take), qty := qty_to_take,
        available_qty := (g.serial_nos.length : ℚ) }
        :: serialGroupWalk gs (remaining - qty_to_take)

/-- The plain-item branch loop of get_available_stock_for_items
(lines 784-802). -/
def plainWalk : List PlainRow → ℚ → List StockAlloc
  | [], _ => []
  | r :: rs, remaining =>
    if remaining ≤ 0 then []
    else if r.qty ≤ 0 then plainWalk rs remaining
    else
      let qty_to_take := min r.qty remaining
      { warehouse := some r.warehouse, storage := r.storage, batch_no := none,
        serial_nos := [], qty := qty_to_take, available_qty := r.qty }
        :: plainWalk rs (remaining - qty_to_take)

/-- The outcome get_available_stock_for_items emits for an invalid item or
when no allocation was found (lines 660-667 and 820-827). -/
def emptyStockOutcome (idx : ℕ) : StockOutcome :=
  { idx := idx, warehouse := none, storage := none, batch_no := none, serial_nos := [],
    available_qty := 0, qty_allocated := 0, has_serial_no := false, has_batch_no := false,
    has_split := false, additional_allocations := [] }

/-- The per-item body of get_available_stock_for_items (lines 655-827).
flags gives the item master's (has_serial_no, has_batch_no) pair;
based_on, priority_map and exclude_warehouses model the Stock Settings
read and the Work Order priority/WIP-exclusion block (lines 626-651),
which only feed these values into the per-item processing. -/
def stockForItem (batchDb : List BatchCand) (serialDb : List SerialCand)
    (sleStorage : String → String → String → Option String)
    (binDb : List BinRow) (whStorage : String → String → List WhStorageRow)
    (today : ℕ) (based_on : String) (flags : String → Bool × Bool)
    (priority_map : String → List String) (exclude_warehouses : List String)
    (idx : ℕ) (item : StockItem) : StockOutcome :=
  let required_qty := orQ item.qty (orQ item.transfer_qty 0)
  if strFalsy item.item_code || decide (required_qty ≤ 0) then emptyStockOutcome idx
  else
    let code := item.item_code.getD ""
    let has_serial := (flags code).1
    let has_batch := (flags code).2
    let prio := priority_map code
    let allocations :=
      if has_batch then
        batchWalk serialDb sleStorage code based_on prio exclude_warehouses has_serial
          (_get_available_batches_for_item batchDb today code [] based_on prio
            exclude_warehouses)
          required_qty
      else if has_serial then
        serialGroupWalk
          (buildSerialGroups []
            (_get_available_serial_nos_for_item serialDb sleStorage code [] required_qty
              based_on prio exclude_warehouses))
          required_qty
      else
        plainWalk
          (_get_available_stock_for_other_item binDb whStorage code [] based_on prio
            exclude_warehouses)
          required_qty
    match allocations with
    | [] => emptyStockOutcome idx
    | a :: rest =>
      { idx := idx, warehouse := a.warehouse, storage := a.storage, batch_no := a.batch_no,
        serial_nos := a.serial_nos, available_qty := a.available_qty,
        qty_allocated := a.qty, has_serial_no := has_serial, has_batch_no := has_batch,
        has_split := decide (rest ≠ []), additional_allocations := rest }

/-- get_available_stock_for_items (lines 602-829), with the external reads
modelled as parameters as described at stockForItem. -/
def get_available_stock_for_items (batchDb : List BatchCand) (serialDb : List SerialCand)
    (sleStorage : String → String → String → Option String)
    (binDb : List BinRow) (whStorage : String → String → List WhStorageRow)
    (today : ℕ) (based_on : String) (flags : String → Bool × Bool)
    (priority_map : String → List String) (exclude_warehouses : List String)
    (items : List StockItem) : List StockOutcome :=
  items.enum.map fun p =>
    stockForItem batchDb serialDb sleStorage binDb whStorage today based_on flags
      priority_map exclude_warehouses p.1 p.2

/-- A two-storage snapshot for the concrete test scenarios: item I in
warehouse W is stored as 5 units in S1 and 5 units in S2, S1 older. -/
def db55 : String → String → List SLEAgg := fun item wh =>
  if item = "I" ∧ wh = "W" then
    [{ storage := "S1", available_qty := 5 }, { storage := "S2", available_qty := 5 }]
  else []

/-- A one-storage snapshot: item I in warehouse W has 3 units in S1. -/
def dbS3 : String → String → List SLEAgg := fun item wh =>
  if item = "I" ∧ wh = "W" then [{ storage := "S1", available_qty := 3 }] else []

/-- A one-storage snapshot: item I in warehouse W has 10 units in S. -/
def dbS10 : String → String → List SLEAgg := fun item wh =>
  if item = "I" ∧ wh = "W" then [{ storage := "S", available_qty := 10 }] else []

/-- The total quantity allocated across all rows and all their allocations
(primary plus additional) of a result of allocate_storage_for_pick_list. -/
def plOutSum (os : List PLOutcome) : ℚ :=
  (os.map fun o => o.qty + (o.additional_allocations.map Alloc.qty).sum).sum

/-- Claim C1: for a group with ranked candidates of quantities [5, 5] and a
single row requesting 7, allocate_storage_for_pick_list returns a primary
allocation of 5 from the first candidate, exactly one overflow allocation
of 2 from the second candidate, and the split flag set to true. -/
theorem c1_split_behavior :
    allocate_storage_for_pick_list db55
      [{ item_code := some "I", warehouse := some "W", stock_qty := some 7,
         name := some "row1", storage := none }] =
    [{ idx := 0, name := some "row1", storage := some "S1", qty := 5, split := true,
       additional_allocations := [{ storage := "S2", qty := 2 }] }] := by
  with_unfolding_all decide

/-- Claim C3: for a group with a single candidate of quantity 3 and a single
row requesting 10, the allocator returns an outcome allocating 3 with no
overflow and the split flag false; the embedding is a total function, so no
exception is possible, and the deficit of 7 is visible to the caller only
by comparing the requested 10 with the allocated 3. -/
theorem c3_deficit_no_throw :
    allocate_storage_for_pick_list dbS3
      [{ item_code := some "I", warehouse := some "W", stock_qty := some 10,
         name := some "row1", storage := none }] =
    [{ idx := 0, name := some "row1", storage := some "S1", qty := 3, split := false,
       additional_allocations := [] }] ∧
    (10 : ℚ) - plOutSum (allocate_storage_for_pick_list dbS3
      [{ item_code := some "I", warehouse := some "W", stock_qty := some 10,
         name := some "row1", storage := none }]) = 7 := by
  constructor
  · with_unfolding_all decide
  · with_unfolding_all decide

/-- Claim C5 (code bug): in allocate_storage_for_pick_list the first
allocation recorded for a row does become its primary storage and quantity
(first conjunct: primary S1 with 5, overflow [(S2, 2)], split true), but in
get_storage_for_work_order_items the storage returned for the same split
row is S2, the last storage drawn from, not the first: allocated_storage is
overwritten on every loop iteration that draws stock (line 305 overwrites
the value set at line 311), contradicting the source's own comment at
line 311 that the first storage found is used. -/
theorem c5_primary_is_first_allocation :
    allocate_storage_for_pick_list db55
      [{ item_code := some "I", warehouse := some "W", stock_qty := some 7,
         name := some "row1", storage := none }] =
    [{ idx := 0, name := some "row1", storage := some "S1", qty := 5, split := true,
       additional_allocations := [{ storage := "S2", qty := 2 }] }] ∧
    get_storage_for_work_order_items db55 "WO-1"
      [{ item_code := some "I", s_warehouse := some "W", qty := some 7,
         transfer_qty := none }] =
    [{ idx := 0, storage := some "S2" }] ∧
    (some "S2" : Option String) ≠ some "S1" := by
  refine ⟨?_, ?_, ?_⟩
  · with_unfolding_all decide
  · with_unfolding_all decide
  · with_unfolding_all decide

/-- Claim C2, counterexample to the stated equality condition: one row
requesting 3 against a single candidate of quantity 10. The total requested
(3) is at most the total available (10), yet the allocated sum is 3, not the
candidate sum 10: equality with the candidate sum holds when requested is at
least the available total, not at most. -/
theorem c2_conservation_counterexample :
    plOutSum (allocate_storage_for_pick_list dbS10
      [{ item_code := some "I", warehouse := some "W", stock_qty := some 3,
         name := none, storage := none }]) = 3 ∧
    ((dbS10 "I" "W").map SLEAgg.available_qty).sum = 10 ∧
    (3 : ℚ) ≤ 10 ∧
    plOutSum (allocate_storage_for_pick_list dbS10
      [{ item_code := some "I", warehouse := some "W", stock_qty := some 3,
         name := none, storage := none }]) ≠
      ((dbS10 "I" "W").map SLEAgg.available_qty).sum := by
  refine ⟨?_, ?_, ?_, ?_⟩
  · with_unfolding_all decide
  · with_unfolding_all decide
  · with_unfolding_all decide
  · with_unfolding_all decide

/-- Claim C4, counterexample: in allocate_storage_for_pick_list a row with
a missing warehouse is skipped by the grouping loop without emitting any
outcome, so the result is empty and the row does not receive exactly one
outcome (first conjunct); and a row with negative quantity is not excluded:
grouped together with a row requesting 5 it drags the group total down to
2, so the valid row is allocated only 2 instead of 5 (second conjunct),
showing the negative row was passed to grouping and the ranker. -/
theorem c4_invalid_rows_counterexample :
    allocate_storage_for_pick_list dbS10
      [{ item_code := some "I", warehouse := none, stock_qty := some 1,
         name := some "r", storage := none }] = [] ∧
    allocate_storage_for_pick_list dbS10
      [{ item_code := some "I", warehouse := some "W", stock_qty := some 5,
         name := some "a", storage := none },
       { item_code := some "I", warehouse := some "W", stock_qty := some (-3),
         name := some "b", storage := none }] =
    [{ idx := 0, name := some "a", storage := some "S", qty := 2, split := false,
       additional_allocations := [] },
     { idx := 1, name := some "b", storage := none, qty := 0, split := false,
       additional_allocations := [] }] := by
  constructor
  · with_unfolding_all decide
  · with_unfolding_all decide

/-- Two batch candidates of item I with the same expiry date, the one
created second listed first in the snapshot. -/
def batchTieDb : List BatchCand :=
  [{ item_code := "I", batch_no := "B2", warehouse := "W", storage := some "S",
     qty := 4, disabled := false, expiry := some 100, creation := 2 },
   { item_code := "I", batch_no := "B1", warehouse := "W", storage := some "S",
     qty := 4, disabled := false, expiry := some 100, creation := 1 }]

/-- Claim C6, counterexample to the tie-break: under the Expiry policy the
query orders by the expiry attribute only (line 397); no secondary key by
creation marker exists. Two candidates with equal expiry stay in snapshot
order, here creation 2 before creation 1, not creation-ascending. -/
theorem c6_tiebreak_counterexample :
    _get_available_batches_for_item batchTieDb 50 "I" [] "Expiry" [] [] = batchTieDb ∧
    (batchTieDb.map BatchCand.creation) = [2, 1] ∧
    ¬ List.Sorted (· ≤ ·) ((_get_available_batches_for_item batchTieDb 50 "I" [] "Expiry"
      [] []).map BatchCand.creation) := by
  refine ⟨?_, ?_, ?_⟩
  · with_unfolding_all decide
  · with_unfolding_all decide
  · with_unfolding_all decide

/-- A dated batch candidate listed before an indefinite-expiry one. -/
def batchNullDb : List BatchCand :=
  [{ item_code := "I", batch_no := "BD", warehouse := "W", storage := some "S",
     qty := 4, disabled := false, expiry := some 100, creation := 1 },
   { item_code := "I", batch_no := "BN", warehouse := "W", storage := some "S",
     qty := 4, disabled := false, expiry := none, creation := 2 }]

/-- Claim C8, counterexample to the placement of indefinite-expiry
candidates: ORDER BY expiry_date ascending on the MariaDB backend sorts
NULL before every date, so the no-expiry batch BN comes first, not after
the dated batch BD as the claim states. -/
theorem c8_expiry_null_order_counterexample :
    (_get_available_batches_for_item batchNullDb 50 "I" [] "Expiry" [] []).map
      BatchCand.batch_no = ["BN", "BD"] ∧
    (_get_available_batches_for_item batchNullDb 50 "I" [] "Expiry" [] []).map
      BatchCand.batch_no ≠ ["BD", "BN"] := by
  constructor
  · with_unfolding_all decide
  · with_unfolding_all decide

/-- The example candidate list of the claim: A and C in warehouse X, B in
warehouse Y, as (name, warehouse) pairs. -/
def prioExample : List (String × String) := [("A", "X"), ("B", "Y"), ("C", "X")]

/-- Claim C7: priority reordering is a stable partition: the result is
exactly the priority-warehouse candidates in their original relative order
followed by the others in their original relative order (filter preserves
relative order), it is a permutation of the input (no candidate dropped or
duplicated), and on the claim's example [A(wh=X), B(wh=Y), C(wh=X)] with
priority {X} it yields [A, C, B]. -/
theorem c7_priority_stable_partition :
    (∀ (α : Type) (wh : α → Option String) (data : List α) (ps : List String),
      _prioritize_warehouses wh data ps =
        data.filter (inPrioritySet wh ps)
          ++ data.filter (fun r => !inPrioritySet wh ps r) ∧
      (_prioritize_warehouses wh data ps).Perm data) ∧
    _prioritize_warehouses (fun p => some p.2) prioExample ["X"] =
      [("A", "X"), ("C", "X"), ("B", "Y")] := by
  have key : ∀ (α : Type) (wh : α → Option String) (data : List α) (ps : List String),
      _prioritize_warehouses wh data ps =
        data.filter (inPrioritySet wh ps)
          ++ data.filter (fun r => !inPrioritySet wh ps r) := by
    intro α wh data ps
    by_cases h : ps = []
    · subst h
      have hfalse : ∀ r, inPrioritySet wh ([] : List String) r = false := by
        intro r
        unfold inPrioritySet
        cases wh r <;> simp
      have h0 : _prioritize_warehouses wh data ([] : List String) = data := by
        simp [_prioritize_warehouses]
      have h1 : data.filter (inPrioritySet wh ([] : List String)) = [] :=
        List.filter_eq_nil_iff.mpr fun a _ => by simp [hfalse a]
      have h2 : data.filter (fun r => !inPrioritySet wh ([] : List String) r) = data :=
        List.filter_eq_self.mpr fun a _ => by simp [hfalse a]
      rw [h0, h1, h2]
      simp
    · simp [_prioritize_warehouses, h]
  refine ⟨fun α wh data ps => ⟨key α wh data ps, ?_⟩, by with_unfolding_all decide⟩
  rw [key]
  exact List.filter_append_perm _ data

/-- Every entry recorded by pickLoop has a positive available quantity and
proposes a positive quantity (non-positive aggregates are skipped, and
recording only happens while the remaining requirement is positive). -/
theorem pickLoop_pos : ∀ (rows : List SLEAgg) (R : ℚ),
    ∀ e ∈ pickLoop rows R, 0 < e.available_qty ∧ 0 < e.qty_to_pick := by
  intro rows
  induction rows with
  | nil => intro R e he; simp [pickLoop] at he
  | cons r rs ih =>
    intro R e he
    rw [pickLoop] at he
    by_cases h1 : R ≤ 0
    · rw [if_pos h1] at he
      simp at he
    · rw [if_neg h1] at he
      by_cases h2 : r.available_qty ≤ 0
      · rw [if_pos h2] at he
        exact ih R e he
      · rw [if_neg h2] at he
        rcases List.mem_cons.mp he with h | h
        · subst h
          exact ⟨lt_of_not_le h2, lt_min (lt_of_not_le h2) (lt_of_not_le h1)⟩
        · exact ih _ e h

/-- Distribution of min over addition on the left, for rationals. -/
theorem min_add_left_q (a b c : ℚ) : min (a + b) (a + c) = a + min b c := by
  rcases le_total b c with h | h
  · rw [min_eq_left h, min_eq_left (by linarith)]
  · rw [min_eq_right h, min_eq_right (by linarith)]

/-- The proposed quantities of pickLoop sum to the minimum of the
requirement and the total available quantity, provided the requirement is
non-negative and the snapshot rows are positive (as the SQL HAVING clause
guarantees). -/
theorem pickLoop_sum : ∀ (rows : List SLEAgg) (R : ℚ), 0 ≤ R →
    (∀ r ∈ rows, 0 < r.available_qty) →
    ((pickLoop rows R).map StorageEntry.qty_to_pick).sum =
      min R ((rows.map SLEAgg.available_qty).sum) := by
  intro rows
  induction rows with
  | nil =>
    intro R hR _
    simp [pickLoop, min_eq_right hR]
  | cons r rs ih =>
    intro R hR hpos
    have hrpos : 0 < r.available_qty := hpos r (List.mem_cons_self r rs)
    have hrs : ∀ x ∈ rs, 0 < x.available_qty := fun x hx =>
      hpos x (List.mem_cons_of_mem r hx)
    have hA : 0 ≤ (rs.map SLEAgg.available_qty).sum :=
      List.sum_nonneg fun x hx => by
        rcases List.mem_map.mp hx with ⟨y, hy, rfl⟩
        exact le_of_lt (hrs y hy)
    by_cases h1 : R ≤ 0
    · have hR0 : R = 0 := le_antisymm h1 hR
      subst hR0
      rw [pickLoop, if_pos le_rfl]
      simp only [List.map_nil, List.sum_nil, List.map_cons, List.sum_cons]
      rw [min_eq_left (add_nonneg (le_of_lt hrpos) hA)]
    · rw [pickLoop, if_neg h1, if_neg (not_le.mpr hrpos)]
      simp only [List.map_cons, List.sum_cons]
      have hmle : min r.available_qty R ≤ R := min_le_right _ _
      rw [ih (R - min r.available_qty R) (by linarith) hrs]
      rcases le_total r.available_qty R with hle | hle
      · rw [min_eq_left hle]
        have hkey := min_add_left_q r.available_qty (R - r.available_qty)
          ((rs.map SLEAgg.available_qty).sum)
        rw [show r.available_qty + (R - r.available_qty) = R from by ring] at hkey
        rw [hkey]
      · rw [min_eq_right hle, sub_self, min_eq_left hA, add_zero,
          min_eq_left (le_trans hle (le_add_of_nonneg_right hA))]

/-- The per-entry contract of a get_available_storage_locations result for
requirement R: every entry proposes the minimum of its own available
quantity and the quantity still unproposed before it. -/
def pickSpec (R : ℚ) (out : List StorageEntry) : Prop :=
  ∀ (i : ℕ) (h : i < out.length),
    (out.get ⟨i, h⟩).qty_to_pick =
      min ((out.get ⟨i, h⟩).available_qty)
        (R - ((out.take i).map StorageEntry.qty_to_pick).sum)

/-- pickLoop satisfies the per-entry contract. -/
theorem pickLoop_spec : ∀ (rows : List SLEAgg) (R : ℚ), pickSpec R (pickLoop rows R) := by
  intro rows
  induction rows with
  | nil =>
    intro R i h
    simp [pickLoop] at h
  | cons r rs ih =>
    intro R
    by_cases h1 : R ≤ 0
    · intro i h
      rw [pickLoop, if_pos h1] at h
      simp at h
    · by_cases h2 : r.available_qty ≤ 0
      · have hrw : pickLoop (r :: rs) R = pickLoop rs R := by
          rw [pickLoop, if_neg h1, if_pos h2]
        rw [hrw]
        exact ih R
      · have hrw : pickLoop (r :: rs) R =
            { storage := r.storage, available_qty := r.available_qty,
              qty_to_pick := min r.available_qty R }
              :: pickLoop rs (R - min r.available_qty R) := by
          rw [pickLoop, if_neg h1, if_neg h2]
        rw [hrw]
        intro i h
        match i with
        | 0 => simp
        | Nat.succ j =>
          have hj : j < (pickLoop rs (R - min r.available_qty R)).length :=
            Nat.lt_of_succ_lt_succ (by simpa using h)
          have := ih (R - min r.available_qty R) j hj
          simp only [List.get_cons_succ, List.take_succ_cons, List.map_cons,
            List.sum_cons]
          rw [this]
          congr 1
          ring

/-- Claim C10: for a call of get_available_storage_locations with non-empty
item and warehouse, a positive requirement, and a snapshot of positive
aggregates (as the query's HAVING clause guarantees), every returned entry
proposes min(its available quantity, the quantity still unproposed at that
point), every returned available quantity is positive, and the proposals
sum to min(required, total available) — in particular never more than the
requested quantity. -/
theorem c10_storage_proposal (sleDb : String → String → List SLEAgg)
    (item_code warehouse : String) (required_qty : ℚ)
    (hitem : item_code ≠ "") (hwh : warehouse ≠ "") (hreq : 0 < required_qty)
    (hpos : ∀ r ∈ sleDb item_code warehouse, 0 < r.available_qty) :
    pickSpec required_qty
      (get_available_storage_locations sleDb item_code warehouse required_qty) ∧
    (∀ e ∈ get_available_storage_locations sleDb item_code warehouse required_qty,
      0 < e.available_qty) ∧
    ((get_available_storage_locations sleDb item_code warehouse required_qty).map
      StorageEntry.qty_to_pick).sum =
      min required_qty (((sleDb item_code warehouse).map SLEAgg.available_qty).sum) ∧
    ((get_available_storage_locations sleDb item_code warehouse required_qty).map
      StorageEntry.qty_to_pick).sum ≤ required_qty := by
  have hun : get_available_storage_locations sleDb item_code warehouse required_qty =
      pickLoop (sleDb item_code warehouse) required_qty := by
    rw [get_available_storage_locations, if_neg (by simp [hitem, hwh]),
      if_neg (not_le.mpr hreq)]
  rw [hun]
  refine ⟨pickLoop_spec _ _, fun e he => (pickLoop_pos _ _ e he).1, ?_, ?_⟩
  · exact pickLoop_sum _ _ (le_of_lt hreq) hpos
  · rw [pickLoop_sum _ _ (le_of_lt hreq) hpos]
    exact min_le_left _ _

theorem c10_storage_proposal_witness :
    ("I" ≠ "" ∧ "W" ≠ "" ∧ (0 : ℚ) < 7 ∧ ∀ r ∈ dbS10 "I" "W", 0 < r.available_qty) ∧
    (pickSpec 7 (get_available_storage_locations dbS10 "I" "W" 7) ∧
     (∀ e ∈ get_available_storage_locations dbS10 "I" "W" 7, 0 < e.available_qty) ∧
     ((get_available_storage_locations dbS10 "I" "W" 7).map
       StorageEntry.qty_to_pick).sum =
       min 7 (((dbS10 "I" "W").map SLEAgg.available_qty).sum) ∧
     ((get_available_storage_locations dbS10 "I" "W" 7).map
       StorageEntry.qty_to_pick).sum ≤ 7) :=
  ⟨⟨by decide, by decide, by with_unfolding_all decide, by with_unfolding_all decide⟩,
   c10_storage_proposal dbS10 "I" "W" 7 (by decide) (by decide)
     (by with_unfolding_all decide) (by with_unfolding_all decide)⟩

/-- The invariant of the allocator's cursor: remaining_in_storage is
non-negative, every not-yet-reached candidate proposes a positive quantity,
and a cursor that has run past the last candidate has nothing remaining. -/
def cursorOK (cur : List StorageEntry) (rem : ℚ) : Prop :=
  0 ≤ rem ∧ (∀ e ∈ cur.tail, 0 < e.qty_to_pick) ∧ (cur = [] → rem = 0)

/-- The quantity a cursor state can still hand out: what remains of the
current candidate plus the proposals of the candidates after it. -/
def supply (cur : List StorageEntry) (rem : ℚ) : ℚ :=
  rem + ((cur.tail).map StorageEntry.qty_to_pick).sum

theorem supply_rowNext (cs : List StorageEntry) :
    supply cs (rowNext cs) = (cs.map StorageEntry.qty_to_pick).sum := by
  cases cs <;> simp [supply, rowNext]

theorem supply_nonneg (cur : List StorageEntry) (rem : ℚ) (h : cursorOK cur rem) :
    0 ≤ supply cur rem := by
  have : 0 ≤ ((cur.tail).map StorageEntry.qty_to_pick).sum :=
    List.sum_nonneg fun x hx => by
      rcases List.mem_map.mp hx with ⟨y, hy, rfl⟩
      exact le_of_lt (h.2.1 y hy)
  have h0 := h.1
  unfold supply
  linarith

/-- One pass of the inner while loop: the allocations recorded for a row
sum to min(need (clamped at 0), supply), the supply shrinks by exactly that
amount, and the cursor invariant is preserved. -/
theorem allocRow_step : ∀ (cur : List StorageEntry) (rem need : ℚ),
    cursorOK cur rem →
    (((allocRow cur rem need).1.map Alloc.qty).sum =
      min (max need 0) (supply cur rem)) ∧
    supply (allocRow cur rem need).2.1 (allocRow cur rem need).2.2 =
      supply cur rem - ((allocRow cur rem need).1.map Alloc.qty).sum ∧
    cursorOK (allocRow cur rem need).2.1 (allocRow cur rem need).2.2 := by
  intro cur
  induction cur with
  | nil =>
    intro rem need h
    have hrem : rem = 0 := h.2.2 rfl
    subst hrem
    refine ⟨?_, by simp [allocRow], h⟩
    rw [allocRow]
    simp [supply, min_eq_right (le_max_right need 0)]
  | cons c cs ih =>
    intro rem need h
    have hS : 0 ≤ supply (c :: cs) rem := supply_nonneg _ _ h
    by_cases h1 : need ≤ 0
    · have hrw : allocRow (c :: cs) rem need = ([], c :: cs, rem) := by
        rw [allocRow, if_pos h1]
      rw [hrw]
      refine ⟨?_, by simp, h⟩
      simp [max_eq_right h1, min_eq_left hS]
    · by_cases h2 : need ≤ rem
      · have hrw : allocRow (c :: cs) rem need =
            ([{ storage := c.storage, qty := need }], c :: cs, rem - need) := by
          rw [allocRow, if_neg h1, if_pos h2]
        rw [hrw]
        have hsub : ((cs : List StorageEntry).map StorageEntry.qty_to_pick).sum =
            supply (c :: cs) rem - rem := by
          simp [supply]
        constructor
        · have hneedS : need ≤ supply (c :: cs) rem := by
            have : 0 ≤ ((cs : List StorageEntry).map StorageEntry.qty_to_pick).sum :=
              List.sum_nonneg fun x hx => by
                rcases List.mem_map.mp hx with ⟨y, hy, rfl⟩
                exact le_of_lt (h.2.1 y hy)
            unfold supply
            simp only [List.tail_cons]
            linarith
          simp [max_eq_left (le_of_not_le h1), min_eq_left hneedS]
        refine ⟨?_, ?_⟩
        · simp only [List.map_cons, List.map_nil, List.sum_cons, List.sum_nil]
          unfold supply
          simp only [List.tail_cons]
          ring
        · exact ⟨by show (0 : ℚ) ≤ rem - need; linarith, h.2.1, by simp⟩
      · have hnext : cursorOK cs (rowNext cs) := by
          refine ⟨?_, ?_, ?_⟩
          · cases cs with
            | nil => simp [rowNext]
            | cons d ds => exact le_of_lt (h.2.1 d (by simp))
          · intro e he
            cases cs with
            | nil => simp at he
            | cons d ds => exact h.2.1 e (List.mem_cons_of_mem d (by simpa using he))
          · intro hcs
            subst hcs
            simp [rowNext]
        have hsupcs : supply cs (rowNext cs) =
            ((cs : List StorageEntry).map StorageEntry.qty_to_pick).sum :=
          supply_rowNext cs
        by_cases h3 : 0 < rem
        · have hrw : allocRow (c :: cs) rem need =
              ({ storage := c.storage, qty := rem } :: (allocRow cs (rowNext cs) (need - rem)).1,
               (allocRow cs (rowNext cs) (need - rem)).2.1,
               (allocRow cs (rowNext cs) (need - rem)).2.2) := by
            rw [allocRow, if_neg h1, if_neg h2, if_pos h3]
          obtain ⟨ihsum, ihsupply, ihok⟩ := ih (rowNext cs) (need - rem) hnext
          rw [hrw]
          have hmax1 : max (need - rem) 0 = need - rem := max_eq_left (by linarith [lt_of_not_le h2])
          have hmax2 : max need 0 = need := max_eq_left (by linarith [lt_of_not_le h1])
          constructor
          · simp only [List.map_cons, List.sum_cons]
            rw [ihsum, hsupcs, hmax1, hmax2]
            have hkey := min_add_left_q rem (need - rem)
              ((cs.map StorageEntry.qty_to_pick).sum)
            rw [show rem + (need - rem) = need from by ring] at hkey
            rw [← hkey]
            simp [supply]
          · constructor
            · simp only [List.map_cons, List.sum_cons]
              rw [ihsupply, hsupcs]
              unfold supply
              simp only [List.tail_cons]
              ring
            · exact ihok
        · have hrem0 : rem = 0 := le_antisymm (le_of_not_lt h3) h.1
          subst hrem0
          have hrw : allocRow (c :: cs) 0 need = allocRow cs (rowNext cs) need := by
            rw [allocRow, if_neg h1, if_neg h2, if_neg (lt_irrefl 0)]
          obtain ⟨ihsum, ihsupply, ihok⟩ := ih (rowNext cs) need hnext
          rw [hrw]
          refine ⟨?_, ?_, ihok⟩
          · rw [ihsum, hsupcs]
            congr 1
            unfold supply
            simp only [List.tail_cons]
            ring
          · rw [ihsupply, hsupcs]
            congr 1
            unfold supply
            simp only [List.tail_cons]
            ring

/-- Chaining greedy minima: consuming min(a, S) first and then min(b, rest)
consumes min(a + b, S) in total. -/
theorem min_chain (a b S : ℚ) (hb : 0 ≤ b) :
    min a S + min b (S - min a S) = min (a + b) S := by
  rcases le_total a S with h | h
  · rw [min_eq_left h]
    rcases le_total b (S - a) with h2 | h2
    · rw [min_eq_left h2, min_eq_left (by linarith)]
    · rw [min_eq_right h2, min_eq_right (by linarith)]
      ring
  · rw [min_eq_right h, sub_self, min_eq_right hb, add_zero,
      min_eq_right (by linarith)]

/-- The primary quantity plus the overflow quantities of a row equal the
sum over all its recorded allocations. -/
theorem alloc_head_tail_sum (l : List Alloc) :
    ((l.head?.map Alloc.qty).getD 0) + ((l.tail.map Alloc.qty).sum) =
      (l.map Alloc.qty).sum := by
  cases l <;> simp

theorem plOutSum_cons (o : PLOutcome) (l : List PLOutcome) :
    plOutSum (o :: l) =
      (o.qty + (o.additional_allocations.map Alloc.qty).sum) + plOutSum l := by
  simp [plOutSum]

/-- The allocator's walk over a group's rows hands out
min(sum of the rows' positive requests, supply of the cursor). -/
theorem allocRowsPL_sum : ∀ (rows : List GroupRow) (cur : List StorageEntry) (rem : ℚ),
    cursorOK cur rem →
    plOutSum (allocRowsPL rows cur rem) =
      min ((rows.map fun r => max r.qty 0).sum) (supply cur rem) := by
  intro rows
  induction rows with
  | nil =>
    intro cur rem h
    have h0 : min (0 : ℚ) (supply cur rem) = 0 :=
      min_eq_left (supply_nonneg cur rem h)
    simp [allocRowsPL, plOutSum, h0]
  | cons r rs ih =>
    intro cur rem h
    obtain ⟨hsum, hsupply, hok⟩ := allocRow_step cur rem r.qty h
    have hrw : allocRowsPL (r :: rs) cur rem =
        { idx := r.idx, name := r.name,
          storage := (allocRow cur rem r.qty).1.head?.map Alloc.storage,
          qty := ((allocRow cur rem r.qty).1.head?.map Alloc.qty).getD 0,
          split := decide (1 < (allocRow cur rem r.qty).1.length),
          additional_allocations := (allocRow cur rem r.qty).1.tail }
          :: allocRowsPL rs (allocRow cur rem r.qty).2.1 (allocRow cur rem r.qty).2.2 := rfl
    rw [hrw, plOutSum_cons]
    dsimp only
    rw [alloc_head_tail_sum, hsum, ih _ _ hok, hsupply, hsum]
    have hbs : 0 ≤ (rs.map fun r => max r.qty 0).sum :=
      List.sum_nonneg fun x hx => by
        rcases List.mem_map.mp hx with ⟨y, _, rfl⟩
        exact le_max_right y.qty 0
    rw [List.map_cons, List.sum_cons]
    exact min_chain _ _ _ hbs

/-- The no-storage-data branch allocates nothing. -/
theorem plOutSum_empty_outcomes (rows : List GroupRow) :
    plOutSum (rows.map fun r =>
      ({ idx := r.idx, name := r.name, storage := none, qty := 0, split := false,
         additional_allocations := [] } : PLOutcome)) = 0 := by
  induction rows with
  | nil => simp [plOutSum]
  | cons r rs ih => rw [List.map_cons, plOutSum_cons]; simpa using ih

/-- Requests clamped at zero dominate the raw requests. -/
theorem sum_max_ge (rows : List GroupRow) :
    (rows.map GroupRow.qty).sum ≤ (rows.map fun r => max r.qty 0).sum :=
  List.sum_le_sum fun r _ => le_max_left r.qty 0

/-- The conservation accounting for one group: what processGroupPL hands
out never exceeds the snapshot total, reaches it whenever the group's
request covers it, and equals the (non-negative) request when availability
covers the request. -/
theorem processGroupPL_conservation (sleDb : String → String → List SLEAgg) (g : PLGroup)
    (hitem : g.item_code ≠ "") (hwh : g.warehouse ≠ "")
    (hpos : ∀ r ∈ sleDb g.item_code g.warehouse, 0 < r.available_qty) :
    plOutSum (processGroupPL sleDb g) ≤
      ((sleDb g.item_code g.warehouse).map SLEAgg.available_qty).sum ∧
    (((sleDb g.item_code g.warehouse).map SLEAgg.available_qty).sum ≤
        (g.rows.map GroupRow.qty).sum →
      plOutSum (processGroupPL sleDb g) =
        ((sleDb g.item_code g.warehouse).map SLEAgg.available_qty).sum) ∧
    ((g.rows.map GroupRow.qty).sum ≤
        ((sleDb g.item_code g.warehouse).map SLEAgg.available_qty).sum →
      0 ≤ (g.rows.map GroupRow.qty).sum →
      plOutSum (processGroupPL sleDb g) = (g.rows.map GroupRow.qty).sum) := by
  have hA0 : 0 ≤ ((sleDb g.item_code g.warehouse).map SLEAgg.available_qty).sum :=
    List.sum_nonneg fun x hx => by
      rcases List.mem_map.mp hx with ⟨y, hy, rfl⟩
      exact le_of_lt (hpos y hy)
  by_cases hR : (g.rows.map GroupRow.qty).sum ≤ 0
  · have hloc : get_available_storage_locations sleDb g.item_code g.warehouse
        ((g.rows.map GroupRow.qty).sum) = [] := by
      rw [get_available_storage_locations, if_neg (by simp [hitem, hwh]), if_pos hR]
    have hout : processGroupPL sleDb g = g.rows.map fun r =>
        ({ idx := r.idx, name := r.name, storage := none, qty := 0, split := false,
           additional_allocations := [] } : PLOutcome) := by
      rw [processGroupPL, hloc]
    rw [hout, plOutSum_empty_outcomes]
    refine ⟨hA0, fun hAR => ?_, fun hRA hR0 => ?_⟩
    · linarith
    · linarith
  · push_neg at hR
    have hun : get_available_storage_locations sleDb g.item_code g.warehouse
        ((g.rows.map GroupRow.qty).sum) =
        pickLoop (sleDb g.item_code g.warehouse) ((g.rows.map GroupRow.qty).sum) := by
      rw [get_available_storage_locations, if_neg (by simp [hitem, hwh]),
        if_neg (not_le.mpr hR)]
    have hsum := pickLoop_sum (sleDb g.item_code g.warehouse)
      ((g.rows.map GroupRow.qty).sum) (le_of_lt hR) hpos
    have hP : (g.rows.map GroupRow.qty).sum ≤ (g.rows.map fun r => max r.qty 0).sum :=
      sum_max_ge g.rows
    cases hloc : pickLoop (sleDb g.item_code g.warehouse) ((g.rows.map GroupRow.qty).sum) with
    | nil =>
      have hA : min ((g.rows.map GroupRow.qty).sum)
          (((sleDb g.item_code g.warehouse).map SLEAgg.available_qty).sum) = 0 := by
        rw [← hsum, hloc]
        simp
      have hA0' : ((sleDb g.item_code g.warehouse).map SLEAgg.available_qty).sum = 0 := by
        rcases min_eq_iff.mp hA with ⟨h1, _⟩ | ⟨h1, _⟩
        · exact absurd h1 (by linarith)
        · exact h1
      have hout : processGroupPL sleDb g = g.rows.map fun r =>
          ({ idx := r.idx, name := r.name, storage := none, qty := 0, split := false,
             additional_allocations := [] } : PLOutcome) := by
        rw [processGroupPL, hun, hloc]
      rw [hout, plOutSum_empty_outcomes, hA0']
      exact ⟨le_rfl, fun _ => rfl, fun hRA _ => absurd hRA (not_le.mpr hR)⟩
    | cons e rest =>
      have hok : cursorOK (e :: rest) e.qty_to_pick := by
        have hmem : ∀ x ∈ e :: rest, 0 < x.qty_to_pick := by
          intro x hx
          have : x ∈ pickLoop (sleDb g.item_code g.warehouse)
              ((g.rows.map GroupRow.qty).sum) := by rw [hloc]; exact hx
          exact (pickLoop_pos _ _ x this).2
        exact ⟨le_of_lt (hmem e (by simp)), fun x hx => hmem x (List.mem_cons_of_mem e hx),
          by simp⟩
      have hsup : supply (e :: rest) e.qty_to_pick =
          min ((g.rows.map GroupRow.qty).sum)
            (((sleDb g.item_code g.warehouse).map SLEAgg.available_qty).sum) := by
        rw [← hsum, hloc]
        simp [supply]
      have hout : processGroupPL sleDb g = allocRowsPL g.rows (e :: rest) e.qty_to_pick := by
        rw [processGroupPL, hun, hloc]
      rw [hout, allocRowsPL_sum g.rows (e :: rest) e.qty_to_pick hok, hsup]
      set R := (g.rows.map GroupRow.qty).sum with hRdef
      set A := ((sleDb g.item_code g.warehouse).map SLEAgg.available_qty).sum with hAdef
      set P := (g.rows.map fun r => max r.qty 0).sum with hPdef
      refine ⟨le_trans (min_le_right _ _) (min_le_right _ _), fun hAR => ?_, fun hRA _ => ?_⟩
      · rw [min_eq_right hAR, min_eq_right (le_trans hAR hP)]
      · rw [min_eq_left hRA, min_eq_right hP]

theorem strFalsy_getD {o : Option String} (h : strFalsy o = false) : o.getD "" ≠ "" := by
  cases o with
  | none => simp [strFalsy] at h
  | some s =>
    simp [strFalsy] at h
    simpa using h

/-- Groups only ever carry the non-falsy item and warehouse values they
were created from. -/
theorem addToGroups_fields : ∀ (gs : List PLGroup) (key item wh : String) (r : GroupRow),
    (∀ g ∈ gs, g.item_code ≠ "" ∧ g.warehouse ≠ "") → item ≠ "" → wh ≠ "" →
    ∀ g ∈ addToGroups gs key item wh r, g.item_code ≠ "" ∧ g.warehouse ≠ "" := by
  intro gs
  induction gs with
  | nil =>
    intro key item wh r _ hitem hwh g hg
    simp only [addToGroups, List.mem_singleton] at hg
    subst hg
    exact ⟨hitem, hwh⟩
  | cons g0 gs ih =>
    intro key item wh r hall hitem hwh g hg
    rw [addToGroups] at hg
    by_cases hk : g0.key = key
    · rw [if_pos hk] at hg
      rcases List.mem_cons.mp hg with h | h
      · subst h
        exact hall g0 (by simp)
      · exact hall g (List.mem_cons_of_mem g0 h)
    · rw [if_neg hk] at hg
      rcases List.mem_cons.mp hg with h | h
      · subst h
        exact hall g (by simp)
      · exact ih key item wh r (fun g' hg' => hall g' (List.mem_cons_of_mem g0 hg'))
          hitem hwh g h

theorem buildGroupsPL_fields : ∀ (rows : List LocRow) (gs : List PLGroup) (n : ℕ),
    (∀ g ∈ gs, g.item_code ≠ "" ∧ g.warehouse ≠ "") →
    ∀ g ∈ buildGroupsPL gs n rows, g.item_code ≠ "" ∧ g.warehouse ≠ "" := by
  intro rows
  induction rows with
  | nil =>
    intro gs n hall g hg
    rw [buildGroupsPL] at hg
    exact hall g hg
  | cons r rs ih =>
    intro gs n hall g hg
    rw [buildGroupsPL] at hg
    by_cases hc : plSkip r = true
    · rw [if_pos hc] at hg
      exact ih gs (n + 1) hall g hg
    · rw [if_neg hc] at hg
      have hcc := hc
      simp only [plSkip, Bool.or_eq_true, not_or, Bool.not_eq_true] at hcc
      exact ih _ (n + 1)
        (addToGroups_fields gs _ _ _ _ hall (strFalsy_getD hcc.1.1) (strFalsy_getD hcc.1.2))
        g hg

/-- Claim C2 (amended): for every (item, warehouse) group built by
allocate_storage_for_pick_list, with the query snapshot positive as the SQL
HAVING clause guarantees, the sum of allocated quantities across all rows
and all their allocations is at most the sum of the candidate quantities;
equality with the candidate sum holds when the group's total requested
quantity is at least the total available (not at most, as originally
claimed), and when the (non-negative) total requested is at most the total
available the allocated sum instead equals the total requested. -/
theorem c2_conservation_amended (sleDb : String → String → List SLEAgg)
    (rows : List LocRow) (g : PLGroup) (hg : g ∈ buildGroupsPL [] 0 rows)
    (hpos : ∀ r ∈ sleDb g.item_code g.warehouse, 0 < r.available_qty) :
    plOutSum (processGroupPL sleDb g) ≤
      ((sleDb g.item_code g.warehouse).map SLEAgg.available_qty).sum ∧
    (((sleDb g.item_code g.warehouse).map SLEAgg.available_qty).sum ≤
        (g.rows.map GroupRow.qty).sum →
      plOutSum (processGroupPL sleDb g) =
        ((sleDb g.item_code g.warehouse).map SLEAgg.available_qty).sum) ∧
    ((g.rows.map GroupRow.qty).sum ≤
        ((sleDb g.item_code g.warehouse).map SLEAgg.available_qty).sum →
      0 ≤ (g.rows.map GroupRow.qty).sum →
      plOutSum (processGroupPL sleDb g) = (g.rows.map GroupRow.qty).sum) := by
  obtain ⟨hitem, hwh⟩ := buildGroupsPL_fields rows [] 0 (by simp) g hg
  exact processGroupPL_conservation sleDb g hitem hwh hpos

/-- The single group built from one row requesting 3 of item I from
warehouse W. -/
def gEx : PLGroup :=
  { key := "I|||W", item_code := "I", warehouse := "W",
    rows := [{ idx := 0, name := none, qty := 3, existing_storage := none }] }

/-- The input row list that builds gEx. -/
def rowsEx : List LocRow :=
  [{ item_code := some "I", warehouse := some "W", stock_qty := some 3,
     name := none, storage := none }]

theorem c2_conservation_amended_witness :
    (gEx ∈ buildGroupsPL [] 0 rowsEx ∧
      ∀ r ∈ dbS10 gEx.item_code gEx.warehouse, 0 < r.available_qty) ∧
    (plOutSum (processGroupPL dbS10 gEx) ≤
      ((dbS10 gEx.item_code gEx.warehouse).map SLEAgg.available_qty).sum ∧
    (((dbS10 gEx.item_code gEx.warehouse).map SLEAgg.available_qty).sum ≤
        (gEx.rows.map GroupRow.qty).sum →
      plOutSum (processGroupPL dbS10 gEx) =
        ((dbS10 gEx.item_code gEx.warehouse).map SLEAgg.available_qty).sum) ∧
    ((gEx.rows.map GroupRow.qty).sum ≤
        ((dbS10 gEx.item_code gEx.warehouse).map SLEAgg.available_qty).sum →
      0 ≤ (gEx.rows.map GroupRow.qty).sum →
      plOutSum (processGroupPL dbS10 gEx) = (gEx.rows.map GroupRow.qty).sum)) :=
  ⟨⟨by with_unfolding_all decide, by with_unfolding_all decide⟩,
   c2_conservation_amended dbS10 rowsEx gEx (by with_unfolding_all decide)
     (by with_unfolding_all decide)⟩

theorem expiryLe_total (a b : Option ℕ) : expiryLe a b = true ∨ expiryLe b a = true := by
  cases a with
  | none => exact Or.inl rfl
  | some x =>
    cases b with
    | none => exact Or.inr rfl
    | some y =>
      rcases le_total x y with h | h
      · exact Or.inl (by simpa [expiryLe] using h)
      · exact Or.inr (by simpa [expiryLe] using h)

theorem expiryLe_trans (a b c : Option ℕ) (h1 : expiryLe a b = true)
    (h2 : expiryLe b c = true) : expiryLe a c = true := by
  cases a with
  | none => rfl
  | some x =>
    cases b with
    | none => simp [expiryLe] at h1
    | some y =>
      cases c with
      | none => simp [expiryLe] at h2
      | some z =>
        simp only [expiryLe, decide_eq_true_eq] at h1 h2 ⊢
        exact le_trans h1 h2

theorem batchOrderLe_total (based_on : String) (a b : BatchCand) :
    batchOrderLe based_on a b = true ∨ batchOrderLe based_on b a = true := by
  unfold batchOrderLe
  by_cases h1 : based_on = "LIFO"
  · simp only [h1, if_pos, decide_eq_true_eq, if_true]
    exact le_total b.creation a.creation
  · by_cases h2 : based_on = "Expiry"
    · simp only [h1, h2, if_false, if_true]
      exact expiryLe_total a.expiry b.expiry
    · simp only [h1, h2, if_false, decide_eq_true_eq]
      exact le_total a.creation b.creation

theorem batchOrderLe_trans (based_on : String) (a b c : BatchCand)
    (h1 : batchOrderLe based_on a b = true) (h2 : batchOrderLe based_on b c = true) :
    batchOrderLe based_on a c = true := by
  unfold batchOrderLe at h1 h2 ⊢
  by_cases hb1 : based_on = "LIFO"
  · simp only [hb1, if_true, decide_eq_true_eq] at h1 h2 ⊢
    exact le_trans h2 h1
  · by_cases hb2 : based_on = "Expiry"
    · simp only [hb1, hb2, if_false, if_true] at h1 h2 ⊢
      exact expiryLe_trans _ _ _ h1 h2
    · simp only [hb1, hb2, if_false, decide_eq_true_eq] at h1 h2 ⊢
      exact le_trans h1 h2

theorem serialOrderLe_total (based_on : String) (a b : SerialCand) :
    serialOrderLe based_on a b = true ∨ serialOrderLe based_on b a = true := by
  unfold serialOrderLe
  split_ifs
  · exact expiryLe_total a.amc_expiry b.amc_expiry
  · simp only [decide_eq_true_eq]
    exact le_total b.creation a.creation
  · simp only [decide_eq_true_eq]
    exact le_total a.creation b.creation

theorem serialOrderLe_trans (based_on : String) (a b c : SerialCand)
    (hab : serialOrderLe based_on a b = true) (hbc : serialOrderLe based_on b c = true) :
    serialOrderLe based_on a c = true := by
  unfold serialOrderLe at hab hbc ⊢
  split_ifs at hab hbc ⊢
  · exact expiryLe_trans _ _ _ hab hbc
  · simp only [decide_eq_true_eq] at hab hbc ⊢
    exact le_trans hbc hab
  · simp only [decide_eq_true_eq] at hab hbc ⊢
    exact le_trans hab hbc

/-- With no priority warehouses, the batch ranker is the stable sort of the
filtered snapshot by the policy key. -/
theorem batches_no_priority (batchDb : List BatchCand) (today : ℕ) (item_code : String)
    (warehouse : List String) (based_on : String) (exclude : List String) :
    _get_available_batches_for_item batchDb today item_code warehouse based_on [] exclude =
      List.insertionSort (fun a b => batchOrderLe based_on a b = true)
        (batchDb.filter (batchQueryPred today item_code warehouse exclude)) := by
  simp [_get_available_batches_for_item]

/-- Without priority reordering, the batch ranker's output is sorted by
the policy key. -/
theorem batches_sorted (batchDb : List BatchCand) (today : ℕ) (item_code : String)
    (warehouse : List String) (based_on : String) (exclude : List String) :
    List.Sorted (fun a b => batchOrderLe based_on a b = true)
      (_get_available_batches_for_item batchDb today item_code warehouse based_on
        [] exclude) := by
  haveI : IsTotal BatchCand (fun a b => batchOrderLe based_on a b = true) :=
    ⟨batchOrderLe_total based_on⟩
  haveI : IsTrans BatchCand (fun a b => batchOrderLe based_on a b = true) :=
    ⟨batchOrderLe_trans based_on⟩
  rw [batches_no_priority]
  exact List.sorted_insertionSort _ _

/-- With no priority warehouses, the serial ranker is the storage-annotated
image of the stable sort of the filtered Serial No rows by the policy key,
truncated to the requirement when one is given. -/
theorem serials_no_priority (serialDb : List SerialCand)
    (sleStorage : String → String → String → Option String)
    (item_code : String) (warehouse : List String) (required_qty : ℚ)
    (based_on : String) (exclude : List String) :
    _get_available_serial_nos_for_item serialDb sleStorage item_code warehouse
      required_qty based_on [] exclude =
      (if 0 < required_qty then
        (List.insertionSort (fun a b => serialOrderLe based_on a b = true)
          (serialDb.filter (serialQueryPred item_code warehouse exclude))).take
          (ratFloorNat required_qty)
      else
        List.insertionSort (fun a b => serialOrderLe based_on a b = true)
          (serialDb.filter (serialQueryPred item_code warehouse exclude))).map
        (serialWithStorage item_code sleStorage) := by
  unfold _get_available_serial_nos_for_item
  by_cases hq : 0 < required_qty
  · simp [hq]
  · simp [hq]

/-- Claim C6 (amended): each ranker orders its candidates by the policy's
single key alone — batch creation descending for LIFO, batch expiry for
Expiry, batch creation ascending otherwise, and analogously for serials —
with no secondary tie-break: tied candidates stay in snapshot order.
Repeated calls with identical inputs against an unchanged snapshot agree
because the ranker is a pure function of the snapshot, not because of a
creation tie-break. The theorem: without priority reordering, the batch
ranker's output is sorted by the policy key and is a permutation of the
filtered snapshot, and the serial ranker's output is the (truncated) image
of the policy-key-sorted filtered snapshot. -/
theorem c6_policy_ordering_amended (batchDb : List BatchCand) (serialDb : List SerialCand)
    (sleStorage : String → String → String → Option String) (today : ℕ)
    (item_code : String) (warehouse : List String) (required_qty : ℚ)
    (based_on : String) (exclude : List String) :
    List.Sorted (fun a b => batchOrderLe based_on a b = true)
      (_get_available_batches_for_item batchDb today item_code warehouse based_on
        [] exclude) ∧
    (_get_available_batches_for_item batchDb today item_code warehouse based_on
      [] exclude).Perm
      (batchDb.filter (batchQueryPred today item_code warehouse exclude)) ∧
    List.Sorted (fun a b => serialOrderLe based_on a b = true)
      (List.insertionSort (fun a b => serialOrderLe based_on a b = true)
        (serialDb.filter (serialQueryPred item_code warehouse exclude))) ∧
    _get_available_serial_nos_for_item serialDb sleStorage item_code warehouse
      required_qty based_on [] exclude =
      (if 0 < required_qty then
        (List.insertionSort (fun a b => serialOrderLe based_on a b = true)
          (serialDb.filter (serialQueryPred item_code warehouse exclude))).take
          (ratFloorNat required_qty)
      else
        List.insertionSort (fun a b => serialOrderLe based_on a b = true)
          (serialDb.filter (serialQueryPred item_code warehouse exclude))).map
        (serialWithStorage item_code sleStorage) := by
  haveI : IsTotal SerialCand (fun a b => serialOrderLe based_on a b = true) :=
    ⟨serialOrderLe_total based_on⟩
  haveI : IsTrans SerialCand (fun a b => serialOrderLe based_on a b = true) :=
    ⟨serialOrderLe_trans based_on⟩
  refine ⟨batches_sorted batchDb today item_code warehouse based_on exclude, ?_,
    List.sorted_insertionSort _ _,
    serials_no_priority serialDb sleStorage item_code warehouse required_qty
      based_on exclude⟩
  rw [batches_no_priority]
  exact List.perm_insertionSort _ _

/-- Every candidate the batch ranker returns comes from the snapshot and
passes the query's WHERE/HAVING conditions. -/
theorem batches_mem_pred (batchDb : List BatchCand) (today : ℕ) (item_code : String)
    (warehouse exclude : List String) (based_on : String) (c : BatchCand)
    (hc : c ∈ _get_available_batches_for_item batchDb today item_code warehouse
      based_on [] exclude) :
    c ∈ batchDb ∧ batchQueryPred today item_code warehouse exclude c = true := by
  rw [batches_no_priority] at hc
  have hc2 := (List.mem_insertionSort _).mp hc
  exact List.mem_filter.mp hc2

/-- Claim C8 (amended): under the soonest-expiry-first policy the batch
candidates are ordered by the expiry attribute ascending, with candidates
having no expiry date sorted BEFORE all candidates that do have one (SQL
NULL sorts first under an ascending ORDER BY on the MariaDB backend, not
last as originally claimed), while batches already past expiry or belonging
to a disabled batch are excluded from the output entirely (as are
non-positive aggregates). Stated for a call without priority reordering,
which would otherwise partition the ordering. -/
theorem c8_expiry_ordering_amended (batchDb : List BatchCand) (today : ℕ)
    (item_code : String) (warehouse exclude : List String) :
    (∀ c ∈ _get_available_batches_for_item batchDb today item_code warehouse "Expiry"
        [] exclude,
      c.disabled = false ∧ (∀ d, c.expiry = some d → today ≤ d) ∧ 0 < c.qty) ∧
    List.Sorted (fun a b => expiryLe a.expiry b.expiry = true)
      (_get_available_batches_for_item batchDb today item_code warehouse "Expiry"
        [] exclude) := by
  constructor
  · intro c hc
    have hpred := (batches_mem_pred batchDb today item_code warehouse exclude
      "Expiry" c hc).2
    unfold batchQueryPred at hpred
    simp only [Bool.and_eq_true, Bool.not_eq_true', decide_eq_true_eq, beq_iff_eq,
      Bool.or_eq_true] at hpred
    refine ⟨hpred.1.1.1.1.1, ?_, hpred.2⟩
    intro d hd
    have hm := hpred.1.1.1.1.2
    rw [hd] at hm
    simpa using hm
  · have hs := batches_sorted batchDb today item_code warehouse "Expiry" exclude
    have hkey : ∀ a b : BatchCand,
        (batchOrderLe "Expiry" a b = true) → (expiryLe a.expiry b.expiry = true) := by
      intro a b h
      unfold batchOrderLe at h
      simpa using h
    exact List.Pairwise.imp (fun h => hkey _ _ h) hs

/-- Reordering by priority warehouses returns only rows of its input. -/
theorem mem_prioritize {α : Type} (wh : α → Option String) (data : List α)
    (ps : List String) (x : α) (hx : x ∈ _prioritize_warehouses wh data ps) :
    x ∈ data := by
  unfold _prioritize_warehouses at hx
  by_cases h : ps = []
  · rwa [if_pos h] at hx
  · rw [if_neg h] at hx
    rcases List.mem_append.mp hx with h1 | h1
    · exact (List.mem_filter.mp h1).1
    · exact (List.mem_filter.mp h1).1

/-- Every row the serial ranker returns is the storage-annotated image of a
Serial No row of the snapshot, keeping its serial and batch identity. -/
theorem serials_from_db (serialDb : List SerialCand)
    (sleStorage : String → String → String → Option String)
    (item_code : String) (warehouse : List String) (required_qty : ℚ)
    (based_on : String) (prio exclude : List String) (s : SerialOut)
    (hs : s ∈ _get_available_serial_nos_for_item serialDb sleStorage item_code
      warehouse required_qty based_on prio exclude) :
    ∃ sc ∈ serialDb, sc.serial_no = s.serial_no ∧ sc.batch_no = s.batch_no := by
  have hdata : ∀ (rows : List SerialCand) (t : SerialOut),
      t ∈ rows.map (serialWithStorage item_code sleStorage) →
      (∀ x ∈ rows, x ∈ serialDb) →
      ∃ sc ∈ serialDb, sc.serial_no = t.serial_no ∧ sc.batch_no = t.batch_no := by
    intro rows t ht hsub
    rcases List.mem_map.mp ht with ⟨sc, hsc, rfl⟩
    exact ⟨sc, hsub sc hsc, rfl, rfl⟩
  have hsub : ∀ x ∈ (if decide (0 < required_qty) && prio.isEmpty then
      (List.insertionSort (fun a b => serialOrderLe based_on a b = true)
        (serialDb.filter (serialQueryPred item_code warehouse exclude))).take
        (ratFloorNat required_qty)
    else
      List.insertionSort (fun a b => serialOrderLe based_on a b = true)
        (serialDb.filter (serialQueryPred item_code warehouse exclude))),
      x ∈ serialDb := by
    intro x hx
    have hx2 : x ∈ List.insertionSort (fun a b => serialOrderLe based_on a b = true)
        (serialDb.filter (serialQueryPred item_code warehouse exclude)) := by
      by_cases hcond : (decide (0 < required_qty) && prio.isEmpty) = true
      · rw [if_pos hcond] at hx
        exact List.mem_of_mem_take hx
      · rwa [if_neg hcond] at hx
    exact (List.mem_filter.mp ((List.mem_insertionSort _).mp hx2)).1
  simp only [_get_available_serial_nos_for_item] at hs
  by_cases hpr : (!prio.isEmpty &&
      !((if decide (0 < required_qty) && prio.isEmpty then
          (List.insertionSort (fun a b => serialOrderLe based_on a b = true)
            (serialDb.filter (serialQueryPred item_code warehouse exclude))).take
            (ratFloorNat required_qty)
        else
          List.insertionSort (fun a b => serialOrderLe based_on a b = true)
            (serialDb.filter (serialQueryPred item_code warehouse exclude))).map
        (serialWithStorage item_code sleStorage)).isEmpty) = true
  · rw [if_pos hpr] at hs
    have hmem : s ∈ _prioritize_warehouses (fun u => u.warehouse)
        (((if decide (0 < required_qty) && prio.isEmpty then
            (List.insertionSort (fun a b => serialOrderLe based_on a b = true)
              (serialDb.filter (serialQueryPred item_code warehouse exclude))).take
              (ratFloorNat required_qty)
          else
            List.insertionSort (fun a b => serialOrderLe based_on a b = true)
              (serialDb.filter (serialQueryPred item_code warehouse exclude))).map
          (serialWithStorage item_code sleStorage))) prio := by
      by_cases hq : (decide (0 < required_qty)) = true
      · rw [if_pos hq] at hs
        exact List.mem_of_mem_take hs
      · rwa [if_neg hq] at hs
    exact hdata _ s (mem_prioritize _ _ _ _ hmem) hsub
  · rw [if_neg hpr] at hs
    exact hdata _ s hs hsub

/-- Python int() truncation never exceeds its non-negative argument. -/
theorem ratFloorNat_le (q : ℚ) (hq : 0 ≤ q) : ((ratFloorNat q : ℕ) : ℚ) ≤ q := by
  unfold ratFloorNat
  have hnn : 0 ≤ Rat.floor q := Rat.le_floor.mpr (by exact_mod_cast hq)
  have hfl : ((Rat.floor q : ℤ) : ℚ) ≤ q := Rat.le_floor.mp le_rfl
  calc ((q.floor.toNat : ℕ) : ℚ) = ((q.floor.toNat : ℤ) : ℚ) := by push_cast; ring
    _ = ((q.floor : ℤ) : ℚ) := by rw [Int.toNat_of_nonneg hnn]
    _ ≤ q := hfl

/-- Every allocation the batch walk records takes a positive quantity from
one of the ranked batch candidates, carries that batch's identity and
warehouse, attaches only serial numbers whose Serial No row belongs to that
batch, and attaches at most as many serial numbers as the quantity taken. -/
theorem batchWalk_props (serialDb : List SerialCand)
    (sleStorage : String → String → String → Option String) (item_code : String)
    (based_on : String) (prio exclude : List String) (has_serial : Bool) :
    ∀ (bs : List BatchCand) (remaining : ℚ),
    ∀ a ∈ batchWalk serialDb sleStorage item_code based_on prio exclude has_serial
      bs remaining,
    ∃ b ∈ bs, a.batch_no = some b.batch_no ∧ a.warehouse = some b.warehouse ∧
      0 < a.qty ∧
      (∀ s ∈ a.serial_nos, ∃ sc ∈ serialDb, sc.serial_no = s ∧
        sc.batch_no = some b.batch_no) ∧
      ((a.serial_nos.length : ℚ) ≤ a.qty) := by
  intro bs
  induction bs with
  | nil =>
    intro remaining a ha
    rw [batchWalk] at ha
    simp at ha
  | cons b bs ih =>
    intro remaining a ha
    rw [batchWalk] at ha
    by_cases h1 : remaining ≤ 0
    · rw [if_pos h1] at ha
      simp at ha
    · rw [if_neg h1] at ha
      by_cases h2 : b.qty ≤ 0
      · rw [if_pos h2] at ha
        rcases ih remaining a ha with ⟨b0, hb0, hrest⟩
        exact ⟨b0, List.mem_cons_of_mem b hb0, hrest⟩
      · rw [if_neg h2] at ha
        rcases List.mem_cons.mp ha with hhead | htail
        · subst hhead
          refine ⟨b, List.mem_cons_self b bs, rfl, rfl, ?_, ?_, ?_⟩
          · exact lt_min (lt_of_not_le h2) (lt_of_not_le h1)
          · intro s hs
            by_cases hser : has_serial = true
            · rw [if_pos hser] at hs
              have hs2 := List.mem_of_mem_take hs
              rcases List.mem_map.mp hs2 with ⟨so, hso, hproj⟩
              obtain ⟨hsomem, hsopred⟩ := List.mem_filter.mp hso
              rcases serials_from_db serialDb sleStorage item_code [b.warehouse]
                (min b.qty remaining) based_on prio exclude so hsomem with
                ⟨sc, hscmem, hsno, hbno⟩
              refine ⟨sc, hscmem, by rw [hsno, hproj], ?_⟩
              rw [hbno]
              exact eq_of_beq hsopred
            · rw [if_neg hser] at hs
              simp at hs
          · by_cases hser : has_serial = true
            · rw [if_pos hser]
              have hlen : (((((_get_available_serial_nos_for_item serialDb sleStorage
                  item_code [b.warehouse] (min b.qty remaining) based_on prio
                  exclude).filter fun s => s.batch_no == some b.batch_no).map
                  SerialOut.serial_no).take (ratFloorNat (min b.qty remaining))).length
                  : ℚ) ≤ ((ratFloorNat (min b.qty remaining) : ℕ) : ℚ) := by
                have := List.length_take_le (ratFloorNat (min b.qty remaining))
                  ((((_get_available_serial_nos_for_item serialDb sleStorage item_code
                    [b.warehouse] (min b.qty remaining) based_on prio
                    exclude).filter fun s => s.batch_no == some b.batch_no).map
                    SerialOut.serial_no))
                exact_mod_cast this
              refine le_trans hlen ?_
              exact ratFloorNat_le _ (le_of_lt (lt_min (lt_of_not_le h2)
                (lt_of_not_le h1)))
            · rw [if_neg hser]
              simp only [List.length_nil, Nat.cast_zero]
              exact le_of_lt (lt_min (lt_of_not_le h2) (lt_of_not_le h1))
        · rcases ih (remaining - min b.qty remaining) a htail with ⟨b0, hb0, hrest⟩
          exact ⟨b0, List.mem_cons_of_mem b hb0, hrest⟩

/-- Claim C9: for an item whose master flags mark it both batch-tracked and
serial-tracked, get_available_stock_for_items dispatches to the
batch-tracked strategy — the per-item outcome is assembled from the batch
walk, never from the serial-only or plain strategy (first conjunct, the
dispatch equation) — and each chosen batch's nested serial lookup is
restricted to units of that batch's identity and attaches at most as many
serial identifiers as the quantity taken from the batch (second conjunct). -/
theorem c9_batch_precedence_nested_serials
    (batchDb : List BatchCand) (serialDb : List SerialCand)
    (sleStorage : String → String → String → Option String)
    (binDb : List BinRow) (whStorage : String → String → List WhStorageRow)
    (today : ℕ) (based_on : String) (flags : String → Bool × Bool)
    (priority_map : String → List String) (exclude : List String)
    (idx : ℕ) (item : StockItem) (code : String)
    (hcode : item.item_code = some code) (hne : code ≠ "")
    (hflags : flags code = (true, true))
    (hreq : 0 < orQ item.qty (orQ item.transfer_qty 0)) :
    (stockForItem batchDb serialDb sleStorage binDb whStorage today based_on flags
        priority_map exclude idx item =
      match batchWalk serialDb sleStorage code based_on (priority_map code) exclude
          true
          (_get_available_batches_for_item batchDb today code [] based_on
            (priority_map code) exclude)
          (orQ item.qty (orQ item.transfer_qty 0)) with
      | [] => emptyStockOutcome idx
      | a :: rest =>
        { idx := idx, warehouse := a.warehouse, storage := a.storage,
          batch_no := a.batch_no, serial_nos := a.serial_nos,
          available_qty := a.available_qty, qty_allocated := a.qty,
          has_serial_no := true, has_batch_no := true,
          has_split := decide (rest ≠ []), additional_allocations := rest }) ∧
    (∀ a ∈ batchWalk serialDb sleStorage code based_on (priority_map code) exclude true
        (_get_available_batches_for_item batchDb today code [] based_on
          (priority_map code) exclude)
        (orQ item.qty (orQ item.transfer_qty 0)),
      ∃ b ∈ _get_available_batches_for_item batchDb today code [] based_on
          (priority_map code) exclude,
        a.batch_no = some b.batch_no ∧ a.warehouse = some b.warehouse ∧
        0 < a.qty ∧
        (∀ s ∈ a.serial_nos, ∃ sc ∈ serialDb, sc.serial_no = s ∧
          sc.batch_no = some b.batch_no) ∧
        ((a.serial_nos.length : ℚ) ≤ a.qty)) := by
  constructor
  · have hbeq : (code == "") = false := by
      simpa using hne
    have hd : decide (orQ item.qty (orQ item.transfer_qty 0) ≤ 0) = false :=
      decide_eq_false (not_le.mpr hreq)
    unfold stockForItem
    rw [hcode]
    simp only [strFalsy, hbeq, hd, Option.getD_some, hflags, Bool.or_false,
      Bool.false_or, if_false, Bool.false_eq_true, if_true]
  · exact batchWalk_props serialDb sleStorage code based_on (priority_map code)
      exclude true _ _

/-- Item master flags marking every item both serial- and batch-tracked. -/
def flagsBoth : String → Bool × Bool := fun _ => (true, true)

/-- No per-item priority warehouses. -/
def prioNone : String → List String := fun _ => []

/-- A stock ledger with no storage recorded for any serial number. -/
def noSleStorage : String → String → String → Option String := fun _ _ _ => none

/-- No per-warehouse storage breakdown. -/
def noWhStorage : String → String → List WhStorageRow := fun _ _ => []

/-- One requested item: 2 units of item I. -/
def itemEx : StockItem := { item_code := some "I", qty := some 2, transfer_qty := none }

theorem c9_batch_precedence_nested_serials_witness :
    (itemEx.item_code = some "I" ∧ "I" ≠ "" ∧ flagsBoth "I" = (true, true) ∧
      0 < orQ itemEx.qty (orQ itemEx.transfer_qty 0)) ∧
    ((stockForItem batchTieDb [] noSleStorage [] noWhStorage 50 "FIFO" flagsBoth
        prioNone [] 0 itemEx =
      match batchWalk [] noSleStorage "I" "FIFO" (prioNone "I") [] true
          (_get_available_batches_for_item batchTieDb 50 "I" [] "FIFO"
            (prioNone "I") [])
          (orQ itemEx.qty (orQ itemEx.transfer_qty 0)) with
      | [] => emptyStockOutcome 0
      | a :: rest =>
        { idx := 0, warehouse := a.warehouse, storage := a.storage,
          batch_no := a.batch_no, serial_nos := a.serial_nos,
          available_qty := a.available_qty, qty_allocated := a.qty,
          has_serial_no := true, has_batch_no := true,
          has_split := decide (rest ≠ []), additional_allocations := rest }) ∧
    (∀ a ∈ batchWalk [] noSleStorage "I" "FIFO" (prioNone "I") [] true
        (_get_available_batches_for_item batchTieDb 50 "I" [] "FIFO"
          (prioNone "I") [])
        (orQ itemEx.qty (orQ itemEx.transfer_qty 0)),
      ∃ b ∈ _get_available_batches_for_item batchTieDb 50 "I" [] "FIFO"
          (prioNone "I") [],
        a.batch_no = some b.batch_no ∧ a.warehouse = some b.warehouse ∧
        0 < a.qty ∧
        (∀ s ∈ a.serial_nos, ∃ sc ∈ ([] : List SerialCand), sc.serial_no = s ∧
          sc.batch_no = some b.batch_no) ∧
        ((a.serial_nos.length : ℚ) ≤ a.qty))) :=
  ⟨⟨rfl, by decide, rfl, by with_unfolding_all decide⟩,
   c9_batch_precedence_nested_serials batchTieDb [] noSleStorage [] noWhStorage 50
     "FIFO" flagsBoth prioNone [] 0 itemEx "I" rfl (by decide) rfl
     (by with_unfolding_all decide)⟩

/-- The indices of the input rows that survive the skip test of
allocate_storage_for_pick_list, counting from n. -/
def validIdxsPL : ℕ → List LocRow → List ℕ
  | _, [] => []
  | n, r :: rs => if plSkip r then validIdxsPL (n + 1) rs else n :: validIdxsPL (n + 1) rs

/-- All row indices held by a list of pick-list groups, in group order. -/
def plGroupIdxs (gs : List PLGroup) : List ℕ :=
  (gs.map fun g => g.rows.map GroupRow.idx).flatten

theorem addToGroups_idxs (gs : List PLGroup) (key item wh : String) (r : GroupRow) :
    (plGroupIdxs (addToGroups gs key item wh r)).Perm (plGroupIdxs gs ++ [r.idx]) := by
  induction gs with
  | nil => simp [addToGroups, plGroupIdxs]
  | cons g gs ih =>
    rw [addToGroups]
    by_cases hk : g.key = key
    · rw [if_pos hk]
      simp only [plGroupIdxs, List.map_cons, List.flatten_cons, List.map_append]
      rw [List.append_assoc, List.append_assoc]
      exact List.Perm.append_left _ List.perm_append_comm
    · rw [if_neg hk]
      simp only [plGroupIdxs, List.map_cons, List.flatten_cons] at ih ⊢
      rw [List.append_assoc]
      exact (List.Perm.append_left _ ih).trans (List.append_assoc _ _ _ ▸ List.Perm.refl _)

theorem buildGroupsPL_idxs : ∀ (rows : List LocRow) (gs : List PLGroup) (n : ℕ),
    (plGroupIdxs (buildGroupsPL gs n rows)).Perm (plGroupIdxs gs ++ validIdxsPL n rows) := by
  intro rows
  induction rows with
  | nil =>
    intro gs n
    simp [buildGroupsPL, validIdxsPL]
  | cons r rs ih =>
    intro gs n
    rw [buildGroupsPL, validIdxsPL]
    by_cases hc : plSkip r = true
    · rw [if_pos hc, if_pos hc]
      exact ih gs (n + 1)
    · rw [if_neg hc, if_neg hc]
      refine (ih _ (n + 1)).trans ?_
      refine (List.Perm.append_right _ (addToGroups_idxs gs _ _ _ _)).trans ?_
      rw [List.append_assoc, List.singleton_append]

theorem allocRowsPL_idxs : ∀ (rows : List GroupRow) (cur : List StorageEntry) (rem : ℚ),
    (allocRowsPL rows cur rem).map PLOutcome.idx = rows.map GroupRow.idx := by
  intro rows
  induction rows with
  | nil => intro cur rem; rfl
  | cons r rs ih =>
    intro cur rem
    rw [allocRowsPL]
    simp only [List.map_cons]
    rw [ih]

theorem processGroupPL_idxs (sleDb : String → String → List SLEAgg) (g : PLGroup) :
    (processGroupPL sleDb g).map PLOutcome.idx = g.rows.map GroupRow.idx := by
  unfold processGroupPL
  cases get_available_storage_locations sleDb g.item_code g.warehouse
      ((g.rows.map GroupRow.qty).sum) with
  | nil => simp [List.map_map]
  | cons l rest => exact allocRowsPL_idxs g.rows (l :: rest) l.qty_to_pick

/-- The pick-list allocator returns exactly one outcome per surviving
(non-skipped) input row: the outcomes' indices are a permutation of the
valid input indices, and in particular skipped rows get no outcome. -/
theorem pl_outcomes_idxs_perm (sleDb : String → String → List SLEAgg)
    (rows : List LocRow) :
    ((allocate_storage_for_pick_list sleDb rows).map PLOutcome.idx).Perm
      (validIdxsPL 0 rows) := by
  unfold allocate_storage_for_pick_list sortByIdxPL
  have hperm := List.perm_insertionSort (fun a b : PLOutcome => a.idx ≤ b.idx)
    (((buildGroupsPL [] 0 rows).map (processGroupPL sleDb)).flatten)
  refine (hperm.map PLOutcome.idx).trans ?_
  have hmap : ((((buildGroupsPL [] 0 rows).map (processGroupPL sleDb)).flatten).map
      PLOutcome.idx) = plGroupIdxs (buildGroupsPL [] 0 rows) := by
    rw [List.map_flatten, List.map_map]
    unfold plGroupIdxs
    congr 1
    exact List.map_congr_left fun g _ => processGroupPL_idxs sleDb g
  rw [hmap]
  simpa [plGroupIdxs] using buildGroupsPL_idxs rows [] 0

/-- All row indices held by a list of work-order groups, in group order. -/
def woGroupIdxs (gs : List WOGroup) : List ℕ :=
  (gs.map fun g => g.rows.map WORow.idx).flatten

theorem addToGroupsWO_idxs (gs : List WOGroup) (key item wh : String) (r : WORow) :
    (woGroupIdxs (addToGroupsWO gs key item wh r)).Perm (woGroupIdxs gs ++ [r.idx]) := by
  induction gs with
  | nil => simp [addToGroupsWO, woGroupIdxs]
  | cons g gs ih =>
    rw [addToGroupsWO]
    by_cases hk : g.key = key
    · rw [if_pos hk]
      simp only [woGroupIdxs, List.map_cons, List.flatten_cons, List.map_append]
      rw [List.append_assoc, List.append_assoc]
      exact List.Perm.append_left _ List.perm_append_comm
    · rw [if_neg hk]
      simp only [woGroupIdxs, List.map_cons, List.flatten_cons] at ih ⊢
      rw [List.append_assoc]
      exact (List.Perm.append_left _ ih).trans (List.append_assoc _ _ _ ▸ List.Perm.refl _)

theorem perm_shuffle {α : Type} (A G R : List α) (a : α) :
    ((A ++ [a]) ++ G ++ R).Perm (A ++ G ++ (a :: R)) := by
  have h1 : ((A ++ [a]) ++ G ++ R) = A ++ (a :: (G ++ R)) := by
    simp [List.append_assoc]
  have h2 : (A ++ G ++ (a :: R)) = A ++ (G ++ (a :: R)) := by
    simp [List.append_assoc]
  rw [h1, h2]
  exact List.Perm.append_left A List.perm_middle.symm

/-- Running the work-order grouping pass over `items` starting at index n
produces, between the invalid-row outcomes and the grouped rows, exactly
the indices n, n+1, ... once each (on top of whatever was accumulated). -/
theorem buildGroupsWO_idxs : ∀ (items : List WOItem) (gs : List WOGroup)
    (acc : List WOOutcome) (n : ℕ),
    ((buildGroupsWO gs acc n items).1.map WOOutcome.idx ++
      woGroupIdxs (buildGroupsWO gs acc n items).2).Perm
      (acc.map WOOutcome.idx ++ woGroupIdxs gs ++ List.range' n items.length) := by
  intro items
  induction items with
  | nil =>
    intro gs acc n
    simp [buildGroupsWO]
  | cons it its ih =>
    intro gs acc n
    rw [buildGroupsWO]
    by_cases hc : woInvalid it = true
    · rw [if_pos hc]
      refine (ih gs (acc ++ [{ idx := n, storage := none }]) (n + 1)).trans ?_
      rw [List.map_append]
      have hr : List.range' n (its.length + 1) = n :: List.range' (n + 1) its.length := rfl
      simp only [List.length_cons, hr, List.map_cons, List.map_nil]
      exact perm_shuffle _ _ _ _
    · rw [if_neg hc]
      refine (ih (addToGroupsWO gs (it.item_code.getD "" ++ "|||" ++ it.s_warehouse.getD "")
        (it.item_code.getD "") (it.s_warehouse.getD "") { idx := n, qty := woQty it })
        acc (n + 1)).trans ?_
      have hadd := addToGroupsWO_idxs gs
        (it.item_code.getD "" ++ "|||" ++ it.s_warehouse.getD "")
        (it.item_code.getD "") (it.s_warehouse.getD "") { idx := n, qty := woQty it }
      refine (((hadd.append_left (acc.map WOOutcome.idx)).append_right
        (List.range' (n + 1) its.length)).trans ?_)
      have hr : List.range' n (its.length + 1) = n :: List.range' (n + 1) its.length := rfl
      simp only [List.length_cons, hr]
      have heq : (acc.map WOOutcome.idx ++ (woGroupIdxs gs ++ [n])) ++
          List.range' (n + 1) its.length =
          acc.map WOOutcome.idx ++ woGroupIdxs gs ++
            (n :: List.range' (n + 1) its.length) := by
        simp [List.append_assoc]
      rw [heq]

theorem allocRowsWO_idxs : ∀ (rows : List WORow) (cur : List StorageEntry) (rem : ℚ),
    (allocRowsWO rows cur rem).map WOOutcome.idx = rows.map WORow.idx := by
  intro rows
  induction rows with
  | nil => intro cur rem; rfl
  | cons r rs ih =>
    intro cur rem
    rw [allocRowsWO]
    simp only [List.map_cons]
    rw [ih]

theorem processGroupWO_idxs (sleDb : String → String → List SLEAgg) (g : WOGroup) :
    (processGroupWO sleDb g).map WOOutcome.idx = g.rows.map WORow.idx := by
  unfold processGroupWO
  cases get_available_storage_locations sleDb g.item_code g.warehouse
      ((g.rows.map WORow.qty).sum) with
  | nil => simp [List.map_map]
  | cons l rest => exact allocRowsWO_idxs g.rows (l :: rest) l.qty_to_pick

/-- Every input item of get_storage_for_work_order_items receives exactly
one outcome: the outcome indices are a permutation of 0..n-1. -/
theorem wo_result_idxs_perm (sleDb : String → String → List SLEAgg)
    (wo : String) (items : List WOItem) (hwo : wo ≠ "") :
    ((get_storage_for_work_order_items sleDb wo items).map WOOutcome.idx).Perm
      (List.range items.length) := by
  unfold get_storage_for_work_order_items sortByIdxWO
  rw [if_neg hwo]
  refine ((List.perm_insertionSort _ _).map WOOutcome.idx).trans ?_
  rw [List.map_append]
  have hmap : ((((buildGroupsWO [] [] 0 items).2.map (processGroupWO sleDb)).flatten).map
      WOOutcome.idx) = woGroupIdxs (buildGroupsWO [] [] 0 items).2 := by
    rw [List.map_flatten, List.map_map]
    unfold woGroupIdxs
    congr 1
    exact List.map_congr_left fun g _ => processGroupWO_idxs sleDb g
  rw [hmap]
  have h := buildGroupsWO_idxs items [] [] 0
  simp only [List.map_nil, woGroupIdxs, List.flatten_nil, List.nil_append] at h
  rw [List.range_eq_range']
  exact h

theorem buildGroupsWO_acc_storage : ∀ (items : List WOItem) (gs : List WOGroup)
    (acc : List WOOutcome) (n : ℕ), (∀ o ∈ acc, o.storage = none) →
    ∀ o ∈ (buildGroupsWO gs acc n items).1, o.storage = none := by
  intro items
  induction items with
  | nil =>
    intro gs acc n hacc o ho
    exact hacc o ho
  | cons it its ih =>
    intro gs acc n hacc o ho
    rw [buildGroupsWO] at ho
    by_cases hc : woInvalid it = true
    · rw [if_pos hc] at ho
      refine ih _ _ (n + 1) ?_ o ho
      intro o' ho'
      rcases List.mem_append.mp ho' with h | h
      · exact hacc o' h
      · simp only [List.mem_singleton] at h
        rw [h]
    · rw [if_neg hc] at ho
      exact ih _ acc (n + 1) hacc o ho

theorem addToGroupsWO_rows : ∀ (gs : List WOGroup) (key item wh : String) (r : WORow),
    ∀ g ∈ addToGroupsWO gs key item wh r, ∀ x ∈ g.rows,
      (∃ g0 ∈ gs, x ∈ g0.rows) ∨ x = r := by
  intro gs
  induction gs with
  | nil =>
    intro key item wh r g hg x hx
    simp only [addToGroupsWO, List.mem_singleton] at hg
    subst hg
    simp only [List.mem_singleton] at hx
    exact Or.inr hx
  | cons g0 gs ih =>
    intro key item wh r g hg x hx
    rw [addToGroupsWO] at hg
    by_cases hk : g0.key = key
    · rw [if_pos hk] at hg
      rcases List.mem_cons.mp hg with h | h
      · subst h
        simp only [List.mem_append, List.mem_singleton] at hx
        rcases hx with h | h
        · exact Or.inl ⟨g0, by simp, h⟩
        · exact Or.inr h
      · exact Or.inl ⟨g, List.mem_cons_of_mem g0 h, hx⟩
    · rw [if_neg hk] at hg
      rcases List.mem_cons.mp hg with h | h
      · subst h
        exact Or.inl ⟨g, by simp, hx⟩
      · rcases ih key item wh r g h x hx with ⟨g1, hg1, hxg1⟩ | h1
        · exact Or.inl ⟨g1, List.mem_cons_of_mem g0 hg1, hxg1⟩
        · exact Or.inr h1

/-- Every row of every group built by get_storage_for_work_order_items
stems from a valid (non-skipped) input item, and records that item's
index. -/
theorem buildGroupsWO_rows : ∀ (items : List WOItem) (gs : List WOGroup)
    (acc : List WOOutcome) (n : ℕ),
    ∀ g ∈ (buildGroupsWO gs acc n items).2, ∀ x ∈ g.rows,
      (∃ g0 ∈ gs, x ∈ g0.rows) ∨
      ∃ j, ∃ hj : j < items.length, x.idx = n + j ∧
        woInvalid (items.get ⟨j, hj⟩) = false := by
  intro items
  induction items with
  | nil =>
    intro gs acc n g hg x hx
    exact Or.inl ⟨g, hg, hx⟩
  | cons it its ih =>
    intro gs acc n g hg x hx
    rw [buildGroupsWO] at hg
    by_cases hc : woInvalid it = true
    · rw [if_pos hc] at hg
      rcases ih gs _ (n + 1) g hg x hx with h | ⟨j, hj, hidx, hval⟩
      · exact Or.inl h
      · refine Or.inr ⟨j + 1, by simpa using Nat.succ_lt_succ hj, by omega, ?_⟩
        simpa using hval
    · rw [if_neg hc] at hg
      rcases ih _ acc (n + 1) g hg x hx with ⟨g1, hg1, hxg1⟩ | ⟨j, hj, hidx, hval⟩
      · rcases addToGroupsWO_rows gs _ _ _ _ g1 hg1 x hxg1 with h | h
        · exact Or.inl h
        · refine Or.inr ⟨0, by simp, ?_, ?_⟩
          · simp [h]
          · simpa using hc
      · refine Or.inr ⟨j + 1, by simpa using Nat.succ_lt_succ hj, by omega, ?_⟩
        simpa using hval

theorem processGroupWO_idx_mem (sleDb : String → String → List SLEAgg) (g : WOGroup)
    (o : WOOutcome) (ho : o ∈ processGroupWO sleDb g) : ∃ r ∈ g.rows, o.idx = r.idx := by
  have h1 : o.idx ∈ (processGroupWO sleDb g).map WOOutcome.idx :=
    List.mem_map_of_mem _ ho
  rw [processGroupWO_idxs] at h1
  rcases List.mem_map.mp h1 with ⟨r, hr, he⟩
  exact ⟨r, hr, he.symm⟩

/-- An invalid input item's outcome carries no storage. -/
theorem wo_invalid_storage_none (sleDb : String → String → List SLEAgg)
    (wo : String) (items : List WOItem) (i : ℕ) (hi : i < items.length)
    (hinv : woInvalid (items.get ⟨i, hi⟩) = true) :
    ∀ o ∈ get_storage_for_work_order_items sleDb wo items, o.idx = i →
      o.storage = none := by
  intro o ho hoi
  unfold get_storage_for_work_order_items at ho
  by_cases hwo : wo = ""
  · rw [if_pos hwo] at ho
    simp at ho
  · rw [if_neg hwo] at ho
    unfold sortByIdxWO at ho
    have ho2 := (List.mem_insertionSort _).mp ho
    rcases List.mem_append.mp ho2 with hacc | hjoin
    · exact buildGroupsWO_acc_storage items [] [] 0 (by simp) o hacc
    · rcases List.mem_flatten.mp hjoin with ⟨l, hl, hol⟩
      rcases List.mem_map.mp hl with ⟨g, hg, rfl⟩
      rcases processGroupWO_idx_mem sleDb g o hol with ⟨r, hr, hidx⟩
      rcases buildGroupsWO_rows items [] [] 0 g hg r hr with ⟨g0, hg0, _⟩ | ⟨j, hj, hidx2, hval⟩
      · simp at hg0
      · have hji : j = i := by omega
        subst hji
        rw [hval] at hinv
        simp at hinv

/-- Claim C4 (amended): in get_storage_for_work_order_items, every input
row receives exactly one outcome (the outcome indices are a permutation of
0..n-1) and a row with missing item code, missing warehouse, or
non-positive quantity receives a storage-less outcome without reaching
grouping or the allocator. In allocate_storage_for_pick_list, however, a
row with missing item code, missing warehouse, or missing/zero quantity is
skipped entirely and receives no outcome at all, and a negative quantity is
not excluded: the outcome indices are a permutation of exactly the
non-skipped input indices. -/
theorem c4_invalid_rows_amended :
    (∀ (sleDb : String → String → List SLEAgg) (wo : String) (items : List WOItem),
      wo ≠ "" →
      ((get_storage_for_work_order_items sleDb wo items).map WOOutcome.idx).Perm
        (List.range items.length)) ∧
    (∀ (sleDb : String → String → List SLEAgg) (wo : String) (items : List WOItem)
      (i : ℕ) (hi : i < items.length), woInvalid (items.get ⟨i, hi⟩) = true →
      ∀ o ∈ get_storage_for_work_order_items sleDb wo items, o.idx = i →
        o.storage = none) ∧
    (∀ (sleDb : String → String → List SLEAgg) (rows : List LocRow),
      ((allocate_storage_for_pick_list sleDb rows).map PLOutcome.idx).Perm
        (validIdxsPL 0 rows)) :=
  ⟨wo_result_idxs_perm, wo_invalid_storage_none, pl_outcomes_idxs_perm⟩
